import Mathlib

/-!
Verification of the offset-ribbon geometry engine of `pneurouter.py`
(Inkscape "pneumatic gate" ribbon extension).

The Python core is shallowly embedded over `ℝ`: points are pairs of reals,
`math.hypot` is `Real.sqrt` of the sum of squares, `math.acos` is
`Real.arccos`, `math.tan` is `Real.tan`.  Python float division by zero
raises; the embedding uses Lean's total division (`x / 0 = 0`), and every
theorem that depends on a quotient carries the corresponding nonzero
hypothesis.  List indexing `xs[i]` is embedded as `List.getD i (0, 0)`
(out-of-range indices never occur on the validated inputs the theorems
quantify over), and `xs[-1]` as `List.getLastD (0, 0)`.
-/

open scoped Classical

/-- A 2D point `(x, y)`, the tuple representation used throughout the code. -/
abbrev Pt := ℝ × ℝ

/-- `math.hypot dx dy`: Euclidean length of the vector `(dx, dy)`. -/
noncomputable def hypot (x y : ℝ) : ℝ := Real.sqrt (x ^ 2 + y ^ 2)

/-- 2D cross product `a.x * b.y - a.y * b.x` (the `denom` expression of
`intersect` and the turn-direction discriminant). -/
def cross2 (a b : Pt) : ℝ := a.1 * b.2 - a.2 * b.1

/-- 2D dot product. -/
def dot2 (a b : Pt) : ℝ := a.1 * b.1 + a.2 * b.2

/-- Squared Euclidean distance between two points.  (`Pt` is a plain product,
whose Mathlib metric is the max metric, so distance comparisons are stated
with `dsq`; for nonnegative quantities `dsq a b ≤ dsq a c ↔ |a-b| ≤ |a-c|`.) -/
def dsq (a b : Pt) : ℝ := (a.1 - b.1) ^ 2 + (a.2 - b.2) ^ 2

/-- Rotate a vector by 90 degrees counterclockwise: `(x, y) ↦ (-y, x)`.
This is the `(-uy, ux)` / `(-t[1], t[0])` pattern of the source. -/
def rot90 (v : Pt) : Pt := (-v.2, v.1)

/-- `angle_between` from `compute_fillet`:
`acos(max(-1, min(1, u·v)))`, the unsigned angle between two (unit) vectors. -/
noncomputable def angle_between (u v : Pt) : ℝ :=
  Real.arccos (max (-1) (min 1 (u.1 * v.1 + u.2 * v.2)))

/-- The `intersect` helper of `effect`: intersection of the two infinite
lines `p1 + t*d1` and `p2 + u*d2`; if `|denom| < 1e-6` the lines are
treated as (nearly) parallel and `p1` is returned unchanged. -/
noncomputable def intersect (p1 d1 p2 d2 : Pt) : Pt :=
  let denom := d1.1 * d2.2 - d1.2 * d2.1
  if |denom| < 1e-6 then p1
  else
    let delta := (p2.1 - p1.1, p2.2 - p1.2)
    let t := (delta.1 * d2.2 - delta.2 * d2.1) / denom
    (p1.1 + t * d1.1, p1.2 + t * d1.2)

/-- A command produced by `compute_fillet`: `("L", p)` or `("C", [c1, c2, e])`. -/
inductive FilletCmd
  | L (p : Pt)
  | C (c1 c2 e : Pt)

/-- `xs[i-1] if i > 0 else xs[-1]`: previous element with wraparound, as
`compute_fillet` looks up the previous raw point and previous offset point. -/
def prevAt (l : List Pt) (i : ℕ) : Pt :=
  if 0 < i then l.getD (i - 1) (0, 0) else l.getLastD (0, 0)

/-- `xs[(i+1) % len(xs)] if is_closed else xs[i+1]`: next element, wrapping
only for closed paths, as `compute_fillet` looks up next raw/offset points. -/
def nextAt (l : List Pt) (closed : Bool) (i : ℕ) : Pt :=
  if closed then l.getD ((i + 1) % l.length) (0, 0) else l.getD (i + 1) (0, 0)

/-- `xs[i]` (current element). -/
def pAt (l : List Pt) (i : ℕ) : Pt := l.getD i (0, 0)

/-- Raw vector `u` from the raw vertex to its previous raw neighbor
(`compute_fillet`, before normalization). -/
def rawU (raw : List Pt) (i : ℕ) : Pt :=
  ((prevAt raw i).1 - (pAt raw i).1, (prevAt raw i).2 - (pAt raw i).2)

/-- Raw vector `v` from the raw vertex to its next raw neighbor. -/
def rawV (raw : List Pt) (closed : Bool) (i : ℕ) : Pt :=
  ((nextAt raw closed i).1 - (pAt raw i).1, (nextAt raw closed i).2 - (pAt raw i).2)

/-- `L1 = hypot(*u)` of `compute_fillet`. -/
noncomputable def rawL1 (raw : List Pt) (i : ℕ) : ℝ := hypot (rawU raw i).1 (rawU raw i).2

/-- `L2 = hypot(*v)` of `compute_fillet`. -/
noncomputable def rawL2 (raw : List Pt) (closed : Bool) (i : ℕ) : ℝ :=
  hypot (rawV raw closed i).1 (rawV raw closed i).2

/-- Normalized `u = (u[0]/L1, u[1]/L1)`. -/
noncomputable def uHat (raw : List Pt) (i : ℕ) : Pt :=
  ((rawU raw i).1 / rawL1 raw i, (rawU raw i).2 / rawL1 raw i)

/-- Normalized `v = (v[0]/L2, v[1]/L2)`. -/
noncomputable def vHat (raw : List Pt) (closed : Bool) (i : ℕ) : Pt :=
  ((rawV raw closed i).1 / rawL2 raw closed i, (rawV raw closed i).2 / rawL2 raw closed i)

/-- `ang = angle_between(u, v)`: the raw turn angle used to classify the
vertex (always in `[0, π]`, being an `arccos` value). -/
noncomputable def rawAng (raw : List Pt) (closed : Bool) (i : ℕ) : ℝ :=
  angle_between (uHat raw i) (vHat raw closed i)

/-- `r = inner_r if is_interior else outer_r` with
`is_interior = ang < pi` (`compute_fillet`). -/
noncomputable def selRadius (raw : List Pt) (closed : Bool) (outer_r inner_r : ℝ)
    (i : ℕ) : ℝ :=
  if rawAng raw closed i < Real.pi then inner_r else outer_r

/-- `d1 = hypot(prev_off - p)`: distance from the offset vertex to the
previous offset vertex. -/
noncomputable def offD1 (loop : List Pt) (i : ℕ) : ℝ :=
  hypot ((prevAt loop i).1 - (pAt loop i).1) ((prevAt loop i).2 - (pAt loop i).2)

/-- `d2 = hypot(next_off - p)`: distance from the offset vertex to the next
offset vertex. -/
noncomputable def offD2 (loop : List Pt) (closed : Bool) (i : ℕ) : ℝ :=
  hypot ((nextAt loop closed i).1 - (pAt loop i).1)
    ((nextAt loop closed i).2 - (pAt loop i).2)

/-- `r = min(r, 0.5*min(d1, d2))`: the radius after clamping to half the
shorter adjacent offset-edge length. -/
noncomputable def clampedR (raw loop : List Pt) (closed : Bool) (outer_r inner_r : ℝ)
    (i : ℕ) : ℝ :=
  min (selRadius raw closed outer_r inner_r i)
    (0.5 * min (offD1 loop i) (offD2 loop closed i))

/-- Unit tangent `t1` from the offset vertex toward the previous offset vertex. -/
noncomputable def tan1 (loop : List Pt) (i : ℕ) : Pt :=
  (((prevAt loop i).1 - (pAt loop i).1) / offD1 loop i,
   ((prevAt loop i).2 - (pAt loop i).2) / offD1 loop i)

/-- Unit tangent `t2` from the offset vertex toward the next offset vertex. -/
noncomputable def tan2 (loop : List Pt) (closed : Bool) (i : ℕ) : Pt :=
  (((nextAt loop closed i).1 - (pAt loop i).1) / offD2 loop closed i,
   ((nextAt loop closed i).2 - (pAt loop i).2) / offD2 loop closed i)

/-- `theta = angle_between(t1, t2)`: angle between the two offset tangents. -/
noncomputable def thetaAt (loop : List Pt) (closed : Bool) (i : ℕ) : ℝ :=
  angle_between (tan1 loop i) (tan2 loop closed i)

/-- Arc start point `start_pt = p + t1*r`. -/
noncomputable def startPt (raw loop : List Pt) (closed : Bool) (outer_r inner_r : ℝ)
    (i : ℕ) : Pt :=
  ((pAt loop i).1 + (tan1 loop i).1 * clampedR raw loop closed outer_r inner_r i,
   (pAt loop i).2 + (tan1 loop i).2 * clampedR raw loop closed outer_r inner_r i)

/-- Arc end point `end_pt = p + t2*r`. -/
noncomputable def endPt (raw loop : List Pt) (closed : Bool) (outer_r inner_r : ℝ)
    (i : ℕ) : Pt :=
  ((pAt loop i).1 + (tan2 loop closed i).1 * clampedR raw loop closed outer_r inner_r i,
   (pAt loop i).2 + (tan2 loop closed i).2 * clampedR raw loop closed outer_r inner_r i)

/-- `k = 4/3 * tan(phi/2)` with `phi = theta/2`. -/
noncomputable def kAt (loop : List Pt) (closed : Bool) (i : ℕ) : ℝ :=
  4 / 3 * Real.tan (thetaAt loop closed i / 2 / 2)

/-- Sign applied to the first control offset: `1 if not is_interior else -1`. -/
noncomputable def sgn1 (raw : List Pt) (closed : Bool) (i : ℕ) : ℝ :=
  if rawAng raw closed i < Real.pi then -1 else 1

/-- Sign applied to the second control offset: `1 if is_interior else -1`. -/
noncomputable def sgn2 (raw : List Pt) (closed : Bool) (i : ℕ) : ℝ :=
  if rawAng raw closed i < Real.pi then 1 else -1

/-- First Bezier control point `c1 = start_pt + n1 * r * k * sign1` with
`n1 = (-t1[1], t1[0])`. -/
noncomputable def ctrl1 (raw loop : List Pt) (closed : Bool) (outer_r inner_r : ℝ)
    (i : ℕ) : Pt :=
  ((startPt raw loop closed outer_r inner_r i).1 +
     (rot90 (tan1 loop i)).1 * clampedR raw loop closed outer_r inner_r i *
       kAt loop closed i * sgn1 raw closed i,
   (startPt raw loop closed outer_r inner_r i).2 +
     (rot90 (tan1 loop i)).2 * clampedR raw loop closed outer_r inner_r i *
       kAt loop closed i * sgn1 raw closed i)

/-- Second Bezier control point `c2 = end_pt + n2 * r * k * sign2` with
`n2 = (-t2[1], t2[0])`. -/
noncomputable def ctrl2 (raw loop : List Pt) (closed : Bool) (outer_r inner_r : ℝ)
    (i : ℕ) : Pt :=
  ((endPt raw loop closed outer_r inner_r i).1 +
     (rot90 (tan2 loop closed i)).1 * clampedR raw loop closed outer_r inner_r i *
       kAt loop closed i * sgn2 raw closed i,
   (endPt raw loop closed outer_r inner_r i).2 +
     (rot90 (tan2 loop closed i)).2 * clampedR raw loop closed outer_r inner_r i *
       kAt loop closed i * sgn2 raw closed i)

/-- The body of `compute_fillet`'s loop for index `i`: the commands appended
for the offset vertex `pts_loop[i]`.  Branches in source order:
open-path endpoints, degenerate raw neighbors, degenerate tangent angle,
and finally the fillet (`LineTo` to the arc start followed by a single
`CubicTo`). -/
noncomputable def filletAt (raw loop : List Pt) (outer_r inner_r : ℝ)
    (closed : Bool) (i : ℕ) : List FilletCmd :=
  if closed = false ∧ (i = 0 ∨ i = loop.length - 1) then [.L (pAt loop i)]
  else if rawL1 raw i = 0 ∨ rawL2 raw closed i = 0 then [.L (pAt loop i)]
  else if thetaAt loop closed i < 1e-3 ∨ |Real.pi - thetaAt loop closed i| < 1e-3 then
    [.L (pAt loop i)]
  else
    [.L (startPt raw loop closed outer_r inner_r i),
     .C (ctrl1 raw loop closed outer_r inner_r i)
       (ctrl2 raw loop closed outer_r inner_r i)
       (endPt raw loop closed outer_r inner_r i)]

/-- `compute_fillet(raw_pts, pts_loop, outer_r, inner_r, is_closed)`:
concatenation of the per-vertex command lists over the whole offset loop. -/
noncomputable def compute_fillet (raw loop : List Pt) (outer_r inner_r : ℝ)
    (closed : Bool) : List FilletCmd :=
  (List.range loop.length).flatMap (filletAt raw loop outer_r inner_r closed)

/-- Unit direction of the edge from `p` to `q`: `(dx/L, dy/L)`. -/
noncomputable def dirOf (p q : Pt) : Pt :=
  ((q.1 - p.1) / hypot (q.1 - p.1) (q.2 - p.2),
   (q.2 - p.2) / hypot (q.1 - p.1) (q.2 - p.2))

/-- `dirs`: per-edge unit directions; one entry per consecutive pair, plus
the wrap-around edge (last point back to first) when the path is closed.
The wrap-around edge's length is NOT checked for zero (in Python a
zero-length wrap edge raises `ZeroDivisionError`; the total embedding
produces the junk direction `(0, 0)` there). -/
noncomputable def dirsOf (pts : List Pt) (closed : Bool) : List Pt :=
  ((pts.zip pts.tail).map fun ab => dirOf ab.1 ab.2) ++
    (if closed then [dirOf (pts.getLastD (0, 0)) (pts.headD (0, 0))] else [])

/-- `norms`: left normals `(-uy, ux)` of the edge directions. -/
noncomputable def normsOf (pts : List Pt) (closed : Bool) : List Pt :=
  (dirsOf pts closed).map rot90

/-- One offset vertex (lines 211-252 of `effect`).  `s = 1` builds the left
(`+norm`) offset, `s = -1` the right (`-norm`) offset.  Open endpoints get a
perpendicular cap; closed endpoints and interior vertices intersect the two
adjacent offset lines. -/
noncomputable def offsetPt (pts : List Pt) (closed : Bool) (half_w s : ℝ)
    (i : ℕ) : Pt :=
  let dirs := dirsOf pts closed
  let norms := normsOf pts closed
  let n := pts.length
  let p := pAt pts i
  if i = 0 then
    if closed then
      let d1 := dirs.getLastD (0, 0)
      let n1 := norms.getLastD (0, 0)
      let d2 := dirs.getD i (0, 0)
      let n2 := norms.getD i (0, 0)
      intersect (p.1 + n1.1 * half_w * s, p.2 + n1.2 * half_w * s) d1
        (p.1 + n2.1 * half_w * s, p.2 + n2.2 * half_w * s) d2
    else
      let nrm := norms.headD (0, 0)
      (p.1 + nrm.1 * half_w * s, p.2 + nrm.2 * half_w * s)
  else if i = n - 1 then
    if closed then
      let d1 := dirs.getD (i - 1) (0, 0)
      let n1 := norms.getD (i - 1) (0, 0)
      let d2 := dirs.getD i (0, 0)
      let n2 := norms.getD i (0, 0)
      intersect (p.1 + n1.1 * half_w * s, p.2 + n1.2 * half_w * s) d1
        (p.1 + n2.1 * half_w * s, p.2 + n2.2 * half_w * s) d2
    else
      let nrm := norms.getLastD (0, 0)
      (p.1 + nrm.1 * half_w * s, p.2 + nrm.2 * half_w * s)
  else
    let d1 := dirs.getD (i - 1) (0, 0)
    let n1 := norms.getD (i - 1) (0, 0)
    let d2 := dirs.getD i (0, 0)
    let n2 := norms.getD i (0, 0)
    intersect (p.1 + n1.1 * half_w * s, p.2 + n1.2 * half_w * s) d1
      (p.1 + n2.1 * half_w * s, p.2 + n2.2 * half_w * s) d2

/-- `left_pts`: the left offset polyline (one vertex per input vertex). -/
noncomputable def leftPts (pts : List Pt) (closed : Bool) (half_w : ℝ) : List Pt :=
  (List.range pts.length).map (offsetPt pts closed half_w 1)

/-- `right_pts`: the right offset polyline. -/
noncomputable def rightPts (pts : List Pt) (closed : Bool) (half_w : ℝ) : List Pt :=
  (List.range pts.length).map (offsetPt pts closed half_w (-1))

/-- `outer_r = design_r + half_w` with `design_r = max(fillet, 0.5) * width`. -/
noncomputable def outerR (width fillet : ℝ) : ℝ :=
  max fillet 0.5 * width + width / 2

/-- `inner_r = max(design_r - half_w, 0.0)`. -/
noncomputable def innerR (width fillet : ℝ) : ℝ :=
  max (max fillet 0.5 * width - width / 2) 0

/-- Lengths of the listed edges (consecutive input pairs); these are the
lengths checked for zero by `effect` before `dirs` are built. -/
noncomputable def listedLens (pts : List Pt) : List ℝ :=
  (pts.zip pts.tail).map fun ab => hypot (ab.2.1 - ab.1.1) (ab.2.2 - ab.1.2)

/-- The errors surfaced by the core (`inkex.errormsg` + early return). -/
inductive Err
  | insufficientPoints
  | degenerateSegment
deriving DecidableEq

/-- The letter of a flattened output command (only `L` and `C` occur as
flattened letters in `build_path`). -/
inductive Letter
  | L
  | C
deriving DecidableEq

/-- The second component `cmd[1]` of a `compute_fillet` command: a point for
`("L", p)`, a triple of points for `("C", [c1, c2, e])`. -/
def FilletArg := Pt ⊕ (Pt × Pt × Pt)

/-- `cmd[1]`. -/
def argOf : FilletCmd → FilletArg
  | .L p => .inl p
  | .C c1 c2 e => .inr (c1, c2, e)

/-- One entry of the open-path output built by `build_path`: the initial
`['M', first[1]]` keeps its argument unflattened; every other command is
re-emitted with its points flattened into one coordinate list; `['Z', []]`
closes the loop. -/
inductive OpenCmd
  | M (a : FilletArg)
  | flat (letter : Letter) (args : List ℝ)
  | Z

/-- The flattening loop of `build_path`: each fillet command's points are
spread in order into a single coordinate list. -/
def flattenCmd : FilletCmd → OpenCmd
  | .L p => .flat .L [p.1, p.2]
  | .C c1 c2 e => .flat .C [c1.1, c1.2, c2.1, c2.2, e.1, e.2]

/-- `build_path(cmds, move_first=True)`: `M` to the first command's argument,
then the remaining commands flattened, then `Z`. -/
def build_path : List FilletCmd → List OpenCmd
  | [] => [.Z]
  | first :: rest => .M (argOf first) :: rest.map flattenCmd ++ [.Z]

/-- One entry of a closed-path output loop (lines 264/267):
`['M', left_loop[0]]` and `['L', pt]` both carry a whole `compute_fillet`
command tuple as their argument, and `['Z', []]` closes the loop.  Note the
type has no cubic constructor: the closed branch only ever emits the
letters M, L and Z. -/
inductive ClosedCmd
  | M (c : FilletCmd)
  | L (c : FilletCmd)
  | Z

/-- `[['M', loop[0]]] + [['L', pt] for pt in loop[1:]] + [['Z', []]]`.
(On an empty list Python would raise an IndexError; that case is
unreachable for validated inputs, and the embedding returns `[Z]`.) -/
def closedLoopOf : List FilletCmd → List ClosedCmd
  | [] => [.Z]
  | c0 :: rest => .M c0 :: rest.map .L ++ [.Z]

/-- The result handed to the document: two independent loops for closed
input, one merged ribbon loop for open input. -/
inductive RibbonResult
  | closedLoops (outer inner : List ClosedCmd)
  | openLoop (cmds : List OpenCmd)

/-- The geometric core of `OffsetRibbon.effect`, starting after point
extraction: validate the point count and the listed edges, derive the
radii, build both offset polylines, fillet them, and assemble the result.
The reversed right-side sequence of the open branch re-wraps each command
unchanged (`[[cmd[0], cmd[1]] for cmd in reversed(right_loop)]`), hence is
embedded as `List.reverse`. -/
noncomputable def effect (pts : List Pt) (closed : Bool) (width fillet : ℝ) :
    Except Err RibbonResult :=
  if pts.length < 2 then .error .insufficientPoints
  else if ∃ l ∈ listedLens pts, l = 0 then .error .degenerateSegment
  else
    let half_w := width / 2
    let outer_r := outerR width fillet
    let inner_r := innerR width fillet
    let left_loop := compute_fillet pts (leftPts pts closed half_w) outer_r inner_r closed
    let right_loop := compute_fillet pts (rightPts pts closed half_w) outer_r inner_r closed
    if closed then
      .ok (.closedLoops (closedLoopOf left_loop) (closedLoopOf right_loop))
    else
      .ok (.openLoop (build_path (left_loop ++ right_loop.reverse)))

/-! ### Basic facts about the embedded primitives -/

lemma hypot_nonneg (x y : ℝ) : 0 ≤ hypot x y := Real.sqrt_nonneg _

lemma hypot_eval (x y r : ℝ) (hr : 0 ≤ r) (h : x ^ 2 + y ^ 2 = r ^ 2) :
    hypot x y = r := by
  rw [hypot, h, Real.sqrt_sq hr]

lemma sq_hypot (x y : ℝ) : hypot x y ^ 2 = x ^ 2 + y ^ 2 :=
  Real.sq_sqrt (by positivity)

lemma hypot_eq_zero_iff (x y : ℝ) : hypot x y = 0 ↔ x = 0 ∧ y = 0 := by
  rw [hypot, Real.sqrt_eq_zero (by positivity)]
  constructor
  · intro h
    constructor <;> nlinarith [sq_nonneg x, sq_nonneg y]
  · rintro ⟨hx, hy⟩
    rw [hx, hy]; ring

lemma angle_between_of_dot_eq_zero (u v : Pt) (h : u.1 * v.1 + u.2 * v.2 = 0) :
    angle_between u v = Real.pi / 2 := by
  rw [angle_between, h]
  norm_num [Real.arccos_zero]

lemma angle_between_le_pi (u v : Pt) : angle_between u v ≤ Real.pi :=
  Real.arccos_le_pi _

lemma half_pi_not_small : ¬ Real.pi / 2 < 1e-3 := by
  have := Real.pi_gt_three
  intro h; nlinarith

lemma half_pi_not_near_pi : ¬ |Real.pi - Real.pi / 2| < 1e-3 := by
  have h3 := Real.pi_gt_three
  rw [show Real.pi - Real.pi / 2 = Real.pi / 2 by ring,
    abs_of_nonneg (by positivity)]
  exact half_pi_not_small

/-! ### C6: the line intersector -/

/-- C6: for every pair of lines `(point, direction)`, `intersect` returns
`p1` unchanged whenever `|d1.x*d2.y - d1.y*d2.x| < 1e-6` (near-parallel
fallback), and otherwise returns `p1 + t*d1` with
`t = ((p2-p1).x*d2.y - (p2-p1).y*d2.x)/denom`, a point that also lies on
the second line (it solves `p1 + t*d1 = p2 + u*d2`). -/
theorem C6_intersect_spec (p1 d1 p2 d2 : Pt) :
    (|d1.1 * d2.2 - d1.2 * d2.1| < 1e-6 → intersect p1 d1 p2 d2 = p1) ∧
    (¬ |d1.1 * d2.2 - d1.2 * d2.1| < 1e-6 →
      intersect p1 d1 p2 d2 =
        (p1.1 + ((p2.1 - p1.1) * d2.2 - (p2.2 - p1.2) * d2.1) /
            (d1.1 * d2.2 - d1.2 * d2.1) * d1.1,
         p1.2 + ((p2.1 - p1.1) * d2.2 - (p2.2 - p1.2) * d2.1) /
            (d1.1 * d2.2 - d1.2 * d2.1) * d1.2) ∧
      ∃ u : ℝ, intersect p1 d1 p2 d2 = (p2.1 + u * d2.1, p2.2 + u * d2.2)) := by
  constructor
  · intro h
    rw [intersect]
    simp only [h, if_true, if_pos]
  · intro h
    have hD : d1.1 * d2.2 - d1.2 * d2.1 ≠ 0 := by
      intro h0
      exact h (by rw [h0]; norm_num)
    have he : intersect p1 d1 p2 d2 =
        (p1.1 + ((p2.1 - p1.1) * d2.2 - (p2.2 - p1.2) * d2.1) /
            (d1.1 * d2.2 - d1.2 * d2.1) * d1.1,
         p1.2 + ((p2.1 - p1.1) * d2.2 - (p2.2 - p1.2) * d2.1) /
            (d1.1 * d2.2 - d1.2 * d2.1) * d1.2) := by
      rw [intersect]
      simp only [h, if_false, if_neg]
    refine ⟨he, ⟨(d1.2 * (p2.1 - p1.1) - d1.1 * (p2.2 - p1.2)) /
      (d1.1 * d2.2 - d1.2 * d2.1), ?_⟩⟩
    rw [he, Prod.ext_iff]
    constructor <;> · simp only []; field_simp; ring

/-- C6 witness: at `p1 = (0,0)`, `d1 = (1,0)`, `p2 = (1,1)`, `d2 = (0,1)`
the determinant is 1, so the non-parallel branch applies and the computed
point `(1, 0)` lies on both lines. -/
theorem C6_intersect_witness :
    ¬ |((1:ℝ),(0:ℝ)).1 * (((0:ℝ),(1:ℝ)) : Pt).2 - ((1:ℝ),(0:ℝ)).2 * (((0:ℝ),(1:ℝ)) : Pt).1| < 1e-6 ∧
    intersect ((0:ℝ),(0:ℝ)) ((1:ℝ),(0:ℝ)) ((1:ℝ),(1:ℝ)) ((0:ℝ),(1:ℝ)) = (1, 0) ∧
    (∃ u : ℝ, intersect ((0:ℝ),(0:ℝ)) ((1:ℝ),(0:ℝ)) ((1:ℝ),(1:ℝ)) ((0:ℝ),(1:ℝ)) =
      (1 + u * 0, 1 + u * 1)) := by
  have hne : ¬ |((1:ℝ),(0:ℝ)).1 * (((0:ℝ),(1:ℝ)) : Pt).2 -
      ((1:ℝ),(0:ℝ)).2 * (((0:ℝ),(1:ℝ)) : Pt).1| < 1e-6 := by norm_num
  have h := (C6_intersect_spec ((0:ℝ),(0:ℝ)) ((1:ℝ),(0:ℝ)) ((1:ℝ),(1:ℝ)) ((0:ℝ),(1:ℝ))).2 hne
  refine ⟨hne, ?_, h.2⟩
  rw [h.1]
  norm_num

/-! ### C9: determinism -/

/-- C9: the computation is a pure function of its inputs — two calls with
identical point sequence, closed flag, width and fillet fraction give
identical results. -/
theorem C9_deterministic (pts1 pts2 : List Pt) (c1 c2 : Bool) (w1 w2 f1 f2 : ℝ)
    (hp : pts1 = pts2) (hc : c1 = c2) (hw : w1 = w2) (hf : f1 = f2) :
    effect pts1 c1 w1 f1 = effect pts2 c2 w2 f2 := by
  rw [hp, hc, hw, hf]

/-- C9 witness: two identical calls on a concrete open two-point path. -/
theorem C9_deterministic_witness :
    ([((0:ℝ),(0:ℝ)), (1,0)] : List Pt) = [((0:ℝ),(0:ℝ)), (1,0)] ∧
    (false = false) ∧ ((2:ℝ) = 2) ∧ ((0.6:ℝ) = 0.6) ∧
    effect [((0:ℝ),(0:ℝ)), (1,0)] false 2 0.6 =
      effect [((0:ℝ),(0:ℝ)), (1,0)] false 2 0.6 :=
  ⟨rfl, rfl, rfl, rfl,
    C9_deterministic _ _ _ _ _ _ _ _ rfl rfl rfl rfl⟩

/-! ### C5: interior/exterior classification -/

/-- C5 (amended): the classification angle is `acos(clamp(u·v, -1, 1))`,
which always lies in `[0, π]`; hence every vertex whose raw angle is
strictly below `π` — reflex corners included, since the unsigned angle
cannot distinguish turn direction — selects `inner_r`, and `outer_r` is
selected exactly in the anti-parallel case `ang = π`. -/
theorem C5_amended_radius_selection (raw : List Pt) (closed : Bool)
    (outer_r inner_r : ℝ) (i : ℕ) :
    (rawAng raw closed i < Real.pi ∧
      selRadius raw closed outer_r inner_r i = inner_r) ∨
    (rawAng raw closed i = Real.pi ∧
      selRadius raw closed outer_r inner_r i = outer_r) := by
  have hle : rawAng raw closed i ≤ Real.pi := angle_between_le_pi _ _
  rcases lt_or_eq_of_le hle with h | h
  · exact Or.inl ⟨h, by rw [selRadius, if_pos h]⟩
  · exact Or.inr ⟨h, by rw [selRadius, if_neg (by rw [h]; exact lt_irrefl _)]⟩

/-- Edge vector of the closed polygon `pts` from vertex `i` to vertex
`(i+1) % n` (used to state turn directions and convexity of the input). -/
def edgeVec (pts : List Pt) (i : ℕ) : Pt :=
  ((pts.getD ((i + 1) % pts.length) (0, 0)).1 - (pts.getD i (0, 0)).1,
   (pts.getD ((i + 1) % pts.length) (0, 0)).2 - (pts.getD i (0, 0)).2)

/-- Concrete closed L-shaped hexagon, traversed counterclockwise, with a
reflex corner (interior angle `3π/2`, i.e. the path turns the other way)
at index 3. -/
def hexRaw : List Pt := [(0, 0), (4, 0), (4, 2), (2, 2), (2, 4), (0, 4)]

lemma hexRaw_len : hexRaw.length = 6 := by simp [hexRaw]

lemma hexRaw_rawU3 : rawU hexRaw 3 = (2, 0) := by
  norm_num [rawU, prevAt, pAt, hexRaw]

lemma hexRaw_rawV3 : rawV hexRaw true 3 = (0, 2) := by
  norm_num [rawV, nextAt, pAt, hexRaw]

lemma hexRaw_ang3 : rawAng hexRaw true 3 = Real.pi / 2 := by
  have h1 : rawL1 hexRaw 3 = 2 := by
    simp only [rawL1, hexRaw_rawU3]
    exact hypot_eval 2 0 2 (by norm_num) (by norm_num)
  have h2 : rawL2 hexRaw true 3 = 2 := by
    simp only [rawL2, hexRaw_rawV3]
    exact hypot_eval 0 2 2 (by norm_num) (by norm_num)
  rw [rawAng]
  apply angle_between_of_dot_eq_zero
  simp only [uHat, vHat, h1, h2, hexRaw_rawU3, hexRaw_rawV3]
  norm_num

/-- C5 counterexample: on the counterclockwise hexagon `hexRaw` every
vertex turns left (positive cross product of the adjacent edge vectors)
except vertex 3, which is a reflex corner (the path turns the other way:
negative cross product, interior angle `3π/2 > π`).  The claim requires
`outer_r` there, but with `outer_r = 2.2` and `inner_r = 0.2` the code
selects `inner_r = 0.2`: the unsigned `acos` angle is `π/2 < π`, so the
vertex is classified interior despite being a reflex turn. -/
theorem C5_counterexample :
    (0 < cross2 (edgeVec hexRaw 5) (edgeVec hexRaw 0)) ∧
    (0 < cross2 (edgeVec hexRaw 0) (edgeVec hexRaw 1)) ∧
    (0 < cross2 (edgeVec hexRaw 1) (edgeVec hexRaw 2)) ∧
    (cross2 (edgeVec hexRaw 2) (edgeVec hexRaw 3) < 0) ∧
    (0 < cross2 (edgeVec hexRaw 3) (edgeVec hexRaw 4)) ∧
    (0 < cross2 (edgeVec hexRaw 4) (edgeVec hexRaw 5)) ∧
    selRadius hexRaw true 2.2 0.2 3 = 0.2 ∧ ((0.2 : ℝ) ≠ 2.2) := by
  refine ⟨?_, ?_, ?_, ?_, ?_, ?_, ?_, by norm_num⟩
  · norm_num [cross2, edgeVec, hexRaw]
  · norm_num [cross2, edgeVec, hexRaw]
  · norm_num [cross2, edgeVec, hexRaw]
  · norm_num [cross2, edgeVec, hexRaw]
  · norm_num [cross2, edgeVec, hexRaw]
  · norm_num [cross2, edgeVec, hexRaw]
  · simp only [selRadius]
    rw [if_pos (by rw [hexRaw_ang3]; linarith [Real.pi_pos])]

/-! ### C1/C2: the emitted fillet commands -/

/-- Tests whether a fillet command is a cubic segment (a `"C"` command). -/
def isCubic : FilletCmd → Bool
  | .C _ _ _ => true
  | .L _ => false

lemma filletAt_arc (raw loop : List Pt) (outer_r inner_r : ℝ) (closed : Bool) (i : ℕ)
    (hend : ¬ (closed = false ∧ (i = 0 ∨ i = loop.length - 1)))
    (h12 : ¬ (rawL1 raw i = 0 ∨ rawL2 raw closed i = 0))
    (hth : ¬ (thetaAt loop closed i < 1e-3 ∨
      |Real.pi - thetaAt loop closed i| < 1e-3)) :
    filletAt raw loop outer_r inner_r closed i =
      [FilletCmd.L (startPt raw loop closed outer_r inner_r i),
       FilletCmd.C (ctrl1 raw loop closed outer_r inner_r i)
         (ctrl2 raw loop closed outer_r inner_r i)
         (endPt raw loop closed outer_r inner_r i)] := by
  unfold filletAt
  rw [if_neg hend, if_neg h12, if_neg hth]

/-- Clockwise unit square, used as concrete raw input in several checks. -/
def sqRaw : List Pt := [(0, 0), (0, 1), (1, 1), (1, 0)]

/-- The left offset loop of `sqRaw` at half-width 1 (side-3 square),
used as a concrete offset loop. -/
def sqLoop : List Pt := [(-1, -1), (-1, 2), (2, 2), (2, -1)]

lemma hypot_3_0 : hypot 3 0 = 3 := hypot_eval 3 0 3 (by norm_num) (by norm_num)

lemma hypot_0_3 : hypot 0 3 = 3 := hypot_eval 0 3 3 (by norm_num) (by norm_num)

lemma hypot_1_0 : hypot 1 0 = 1 := hypot_eval 1 0 1 (by norm_num) (by norm_num)

lemma hypot_0_1 : hypot 0 1 = 1 := hypot_eval 0 1 1 (by norm_num) (by norm_num)

lemma sq_offD1 : offD1 sqLoop 0 = 3 := by
  norm_num [offD1, prevAt, pAt, sqLoop, List.getLastD, hypot_3_0]

lemma sq_offD2 : offD2 sqLoop true 0 = 3 := by
  norm_num [offD2, nextAt, pAt, sqLoop, hypot_0_3]

lemma sq_tan1 : tan1 sqLoop 0 = (1, 0) := by
  norm_num [tan1, prevAt, pAt, sqLoop, List.getLastD, sq_offD1, offD1, hypot_3_0]

lemma sq_tan2 : tan2 sqLoop true 0 = (0, 1) := by
  norm_num [tan2, nextAt, pAt, sqLoop, sq_offD2, offD2, hypot_0_3]

lemma sq_theta : thetaAt sqLoop true 0 = Real.pi / 2 := by
  rw [thetaAt, sq_tan1, sq_tan2]
  apply angle_between_of_dot_eq_zero
  norm_num

lemma sq_rawAng : rawAng sqRaw true 0 = Real.pi / 2 := by
  have h1 : rawL1 sqRaw 0 = 1 := by
    norm_num [rawL1, rawU, prevAt, pAt, sqRaw, List.getLastD, hypot_1_0]
  have h2 : rawL2 sqRaw true 0 = 1 := by
    norm_num [rawL2, rawV, nextAt, pAt, sqRaw, hypot_0_1]
  rw [rawAng]
  apply angle_between_of_dot_eq_zero
  simp only [uHat, vHat, h1, h2]
  norm_num [rawU, rawV, prevAt, nextAt, pAt, sqRaw, List.getLastD]

lemma sq_sel : selRadius sqRaw true 2.2 0.2 0 = 0.2 := by
  simp only [selRadius]
  rw [if_pos (by rw [sq_rawAng]; linarith [Real.pi_pos])]

lemma sq_clamped : clampedR sqRaw sqLoop true 2.2 0.2 0 = 0.2 := by
  rw [clampedR, sq_sel, sq_offD1, sq_offD2]
  norm_num

lemma sq_start : startPt sqRaw sqLoop true 2.2 0.2 0 = (-0.8, -1) := by
  rw [startPt, sq_tan1, sq_clamped]
  norm_num [pAt, sqLoop]

lemma sq_end : endPt sqRaw sqLoop true 2.2 0.2 0 = (-1, -0.8) := by
  rw [endPt, sq_tan2, sq_clamped]
  norm_num [pAt, sqLoop]

lemma sq_kAt : kAt sqLoop true 0 = 4 / 3 * Real.tan (Real.pi / 8) := by
  rw [kAt, sq_theta]
  norm_num
  congr 1
  ring

lemma sq_sgn1 : sgn1 sqRaw true 0 = -1 := by
  simp only [sgn1]
  rw [if_pos (by rw [sq_rawAng]; linarith [Real.pi_pos])]

lemma sq_sgn2 : sgn2 sqRaw true 0 = 1 := by
  simp only [sgn2]
  rw [if_pos (by rw [sq_rawAng]; linarith [Real.pi_pos])]

lemma sq_ctrl1 : ctrl1 sqRaw sqLoop true 2.2 0.2 0 =
    (-0.8, -1 - 0.2 * (4 / 3 * Real.tan (Real.pi / 8))) := by
  rw [ctrl1, sq_start, sq_tan1, sq_clamped, sq_kAt, sq_sgn1]
  rw [Prod.ext_iff]
  constructor
  · show (-0.8 : ℝ) + (rot90 ((1:ℝ), (0:ℝ))).1 * 0.2 * (4 / 3 * Real.tan (Real.pi / 8)) * (-1) = -0.8
    norm_num [rot90]
  · show (-1 : ℝ) + (rot90 ((1:ℝ), (0:ℝ))).2 * 0.2 * (4 / 3 * Real.tan (Real.pi / 8)) * (-1) =
      -1 - 0.2 * (4 / 3 * Real.tan (Real.pi / 8))
    norm_num [rot90]
    ring

lemma sq_ctrl2 : ctrl2 sqRaw sqLoop true 2.2 0.2 0 =
    (-1 - 0.2 * (4 / 3 * Real.tan (Real.pi / 8)), -0.8) := by
  rw [ctrl2, sq_end, sq_tan2, sq_clamped, sq_kAt, sq_sgn2]
  rw [Prod.ext_iff]
  constructor
  · show (-1 : ℝ) + (rot90 ((0:ℝ), (1:ℝ))).1 * 0.2 * (4 / 3 * Real.tan (Real.pi / 8)) * 1 =
      -1 - 0.2 * (4 / 3 * Real.tan (Real.pi / 8))
    norm_num [rot90]
    ring
  · show (-0.8 : ℝ) + (rot90 ((0:ℝ), (1:ℝ))).2 * 0.2 * (4 / 3 * Real.tan (Real.pi / 8)) * 1 = -0.8
    norm_num [rot90]

lemma sq_rawL1 : rawL1 sqRaw 0 = 1 := by
  norm_num [rawL1, rawU, prevAt, pAt, sqRaw, List.getLastD, hypot_1_0]

lemma sq_rawL2 : rawL2 sqRaw true 0 = 1 := by
  norm_num [rawL2, rawV, nextAt, pAt, sqRaw, hypot_0_1]

lemma sq_not_deg_theta : ¬ (thetaAt sqLoop true 0 < 1e-3 ∨
    |Real.pi - thetaAt sqLoop true 0| < 1e-3) := by
  rw [sq_theta]
  rintro (h | h)
  · exact half_pi_not_small h
  · exact half_pi_not_near_pi h

/-- C1 counterexample: at vertex 0 of the clockwise square (offset loop of
half-width 1, `outer_r = 2.2`, `inner_r = 0.2`) the generator emits a
LineTo followed by a SINGLE cubic command — `countP isCubic = 1`, not the
two cubic segments the claim describes. -/
theorem C1_counterexample :
    filletAt sqRaw sqLoop 2.2 0.2 true 0 =
      [FilletCmd.L (-0.8, -1),
       FilletCmd.C (-0.8, -1 - 0.2 * (4 / 3 * Real.tan (Real.pi / 8)))
         (-1 - 0.2 * (4 / 3 * Real.tan (Real.pi / 8)), -0.8) (-1, -0.8)] ∧
    (filletAt sqRaw sqLoop 2.2 0.2 true 0).countP isCubic = 1 := by
  have h := filletAt_arc sqRaw sqLoop 2.2 0.2 true 0 (by simp)
    (by rintro (h | h)
        · rw [sq_rawL1] at h; norm_num at h
        · rw [sq_rawL2] at h; norm_num at h)
    sq_not_deg_theta
  rw [h, sq_start, sq_ctrl1, sq_ctrl2, sq_end]
  exact ⟨rfl, rfl⟩

/-- C1 (amended): at every vertex where a fillet is generated (not an open
endpoint, raw neighbors non-degenerate, `θ ≥ 1e-3` and `|π-θ| ≥ 1e-3`) the
generator emits a LineTo to the arc start followed by ONE cubic Bezier
command `C c1 c2 end` (a single `"C"` segment, not two), with control
points offset from start/end along the rotated tangents by `r·k`,
`k = (4/3)·tan(φ/2)`, `φ = θ/2`, with signs `-`/`+` for interior corners
and `+`/`-` for exterior corners. -/
theorem C1_amended_fillet_shape (raw loop : List Pt) (outer_r inner_r : ℝ)
    (closed : Bool) (i : ℕ)
    (hend : ¬ (closed = false ∧ (i = 0 ∨ i = loop.length - 1)))
    (hL1 : rawL1 raw i ≠ 0) (hL2 : rawL2 raw closed i ≠ 0)
    (hth1 : 1e-3 ≤ thetaAt loop closed i)
    (hth2 : 1e-3 ≤ |Real.pi - thetaAt loop closed i|) :
    filletAt raw loop outer_r inner_r closed i =
      [FilletCmd.L (startPt raw loop closed outer_r inner_r i),
       FilletCmd.C (ctrl1 raw loop closed outer_r inner_r i)
         (ctrl2 raw loop closed outer_r inner_r i)
         (endPt raw loop closed outer_r inner_r i)] ∧
    (filletAt raw loop outer_r inner_r closed i).countP isCubic = 1 ∧
    kAt loop closed i = 4 / 3 * Real.tan (thetaAt loop closed i / 2 / 2) := by
  have h := filletAt_arc raw loop outer_r inner_r closed i hend
    (by rintro (h | h); exacts [hL1 h, hL2 h])
    (by rintro (h | h)
        · exact absurd h (not_lt.mpr hth1)
        · exact absurd h (not_lt.mpr hth2))
  refine ⟨h, ?_, rfl⟩
  rw [h]
  rfl

/-- C1 witness: the hypotheses of `C1_amended_fillet_shape` hold at vertex 0
of the concrete square configuration, and the conclusion follows there. -/
theorem C1_amended_witness :
    ¬ (true = false ∧ ((0:ℕ) = 0 ∨ (0:ℕ) = sqLoop.length - 1)) ∧
    rawL1 sqRaw 0 ≠ 0 ∧ rawL2 sqRaw true 0 ≠ 0 ∧
    1e-3 ≤ thetaAt sqLoop true 0 ∧ 1e-3 ≤ |Real.pi - thetaAt sqLoop true 0| ∧
    (filletAt sqRaw sqLoop 2.2 0.2 true 0 =
      [FilletCmd.L (startPt sqRaw sqLoop true 2.2 0.2 0),
       FilletCmd.C (ctrl1 sqRaw sqLoop true 2.2 0.2 0)
         (ctrl2 sqRaw sqLoop true 2.2 0.2 0)
         (endPt sqRaw sqLoop true 2.2 0.2 0)] ∧
     (filletAt sqRaw sqLoop 2.2 0.2 true 0).countP isCubic = 1 ∧
     kAt sqLoop true 0 = 4 / 3 * Real.tan (thetaAt sqLoop true 0 / 2 / 2)) := by
  have hend : ¬ (true = false ∧ ((0:ℕ) = 0 ∨ (0:ℕ) = sqLoop.length - 1)) := by simp
  have hL1 : rawL1 sqRaw 0 ≠ 0 := by rw [sq_rawL1]; norm_num
  have hL2 : rawL2 sqRaw true 0 ≠ 0 := by rw [sq_rawL2]; norm_num
  have ht1 : (1e-3 : ℝ) ≤ thetaAt sqLoop true 0 := by
    rw [sq_theta]; exact le_of_not_lt half_pi_not_small
  have ht2 : (1e-3 : ℝ) ≤ |Real.pi - thetaAt sqLoop true 0| := by
    rw [sq_theta]; exact le_of_not_lt half_pi_not_near_pi
  exact ⟨hend, hL1, hL2, ht1, ht2,
    C1_amended_fillet_shape sqRaw sqLoop 2.2 0.2 true 0 hend hL1 hL2 ht1 ht2⟩

lemma unit_sq_of_hypot (a b : ℝ) (h : hypot a b ≠ 0) :
    (a / hypot a b) ^ 2 + (b / hypot a b) ^ 2 = 1 := by
  have hs := sq_hypot a b
  field_simp
  linarith

lemma dsq_offset (p t : Pt) (r : ℝ) (h : t.1 ^ 2 + t.2 ^ 2 = 1) :
    dsq (p.1 + t.1 * r, p.2 + t.2 * r) p = r ^ 2 := by
  simp only [dsq]
  linear_combination (r ^ 2) * h

lemma tan1_unit (loop : List Pt) (i : ℕ) (hd : offD1 loop i ≠ 0) :
    (tan1 loop i).1 ^ 2 + (tan1 loop i).2 ^ 2 = 1 :=
  unit_sq_of_hypot _ _ hd

lemma tan2_unit (loop : List Pt) (closed : Bool) (i : ℕ)
    (hd : offD2 loop closed i ≠ 0) :
    (tan2 loop closed i).1 ^ 2 + (tan2 loop closed i).2 ^ 2 = 1 :=
  unit_sq_of_hypot _ _ hd

/-- C2: at every filleted vertex, the effective radius is
`min(selected design radius, 0.5*min(d_prev, d_next))` with the selected
radius `inner_r = max(fillet*width - width/2, 0)` for interior vertices
and `outer_r = fillet*width + width/2` otherwise (for a caller-clamped
`fillet ≥ 0.5`, `design_radius = fillet * width`), and the emitted chord
endpoints `start = p + r*t1`, `end = p + r*t2` lie at exactly that radius
(in squared distance) from the offset vertex `p`. -/
theorem C2_clamped_radius (raw loop : List Pt) (width fillet : ℝ)
    (closed : Bool) (i : ℕ) (hf : (0.5 : ℝ) ≤ fillet)
    (hend : ¬ (closed = false ∧ (i = 0 ∨ i = loop.length - 1)))
    (hL1 : rawL1 raw i ≠ 0) (hL2 : rawL2 raw closed i ≠ 0)
    (hd1 : offD1 loop i ≠ 0) (hd2 : offD2 loop closed i ≠ 0)
    (hth1 : 1e-3 ≤ thetaAt loop closed i)
    (hth2 : 1e-3 ≤ |Real.pi - thetaAt loop closed i|) :
    clampedR raw loop closed (outerR width fillet) (innerR width fillet) i =
      min (if rawAng raw closed i < Real.pi then max (fillet * width - width / 2) 0
           else fillet * width + width / 2)
        (0.5 * min (offD1 loop i) (offD2 loop closed i)) ∧
    filletAt raw loop (outerR width fillet) (innerR width fillet) closed i =
      [FilletCmd.L (startPt raw loop closed (outerR width fillet) (innerR width fillet) i),
       FilletCmd.C (ctrl1 raw loop closed (outerR width fillet) (innerR width fillet) i)
         (ctrl2 raw loop closed (outerR width fillet) (innerR width fillet) i)
         (endPt raw loop closed (outerR width fillet) (innerR width fillet) i)] ∧
    dsq (startPt raw loop closed (outerR width fillet) (innerR width fillet) i)
        (pAt loop i) =
      clampedR raw loop closed (outerR width fillet) (innerR width fillet) i ^ 2 ∧
    dsq (endPt raw loop closed (outerR width fillet) (innerR width fillet) i)
        (pAt loop i) =
      clampedR raw loop closed (outerR width fillet) (innerR width fillet) i ^ 2 := by
  have hmax : max fillet 0.5 = fillet := max_eq_left hf
  refine ⟨?_, ?_, ?_, ?_⟩
  · simp only [clampedR, selRadius, innerR, outerR, hmax]
  · exact filletAt_arc raw loop _ _ closed i hend
      (by rintro (h | h); exacts [hL1 h, hL2 h])
      (by rintro (h | h)
          · exact absurd h (not_lt.mpr hth1)
          · exact absurd h (not_lt.mpr hth2))
  · exact dsq_offset (pAt loop i) (tan1 loop i) _ (tan1_unit loop i hd1)
  · exact dsq_offset (pAt loop i) (tan2 loop closed i) _ (tan2_unit loop closed i hd2)

lemma outerR_2_06 : outerR 2 0.6 = 2.2 := by norm_num [outerR]

lemma innerR_2_06 : innerR 2 0.6 = 0.2 := by norm_num [innerR]

/-- C2 witness: all hypotheses of `C2_clamped_radius` hold at vertex 0 of
the concrete square configuration (`width = 2`, `fillet = 0.6`), and the
conclusion follows there. -/
theorem C2_clamped_radius_witness :
    ((0.5 : ℝ) ≤ 0.6) ∧
    ¬ (true = false ∧ ((0:ℕ) = 0 ∨ (0:ℕ) = sqLoop.length - 1)) ∧
    rawL1 sqRaw 0 ≠ 0 ∧ rawL2 sqRaw true 0 ≠ 0 ∧
    offD1 sqLoop 0 ≠ 0 ∧ offD2 sqLoop true 0 ≠ 0 ∧
    1e-3 ≤ thetaAt sqLoop true 0 ∧ 1e-3 ≤ |Real.pi - thetaAt sqLoop true 0| ∧
    (clampedR sqRaw sqLoop true (outerR 2 0.6) (innerR 2 0.6) 0 =
      min (if rawAng sqRaw true 0 < Real.pi then max (0.6 * 2 - 2 / 2) 0
           else 0.6 * 2 + 2 / 2)
        (0.5 * min (offD1 sqLoop 0) (offD2 sqLoop true 0)) ∧
     filletAt sqRaw sqLoop (outerR 2 0.6) (innerR 2 0.6) true 0 =
      [FilletCmd.L (startPt sqRaw sqLoop true (outerR 2 0.6) (innerR 2 0.6) 0),
       FilletCmd.C (ctrl1 sqRaw sqLoop true (outerR 2 0.6) (innerR 2 0.6) 0)
         (ctrl2 sqRaw sqLoop true (outerR 2 0.6) (innerR 2 0.6) 0)
         (endPt sqRaw sqLoop true (outerR 2 0.6) (innerR 2 0.6) 0)] ∧
     dsq (startPt sqRaw sqLoop true (outerR 2 0.6) (innerR 2 0.6) 0) (pAt sqLoop 0) =
      clampedR sqRaw sqLoop true (outerR 2 0.6) (innerR 2 0.6) 0 ^ 2 ∧
     dsq (endPt sqRaw sqLoop true (outerR 2 0.6) (innerR 2 0.6) 0) (pAt sqLoop 0) =
      clampedR sqRaw sqLoop true (outerR 2 0.6) (innerR 2 0.6) 0 ^ 2) := by
  have hf : (0.5 : ℝ) ≤ 0.6 := by norm_num
  have hend : ¬ (true = false ∧ ((0:ℕ) = 0 ∨ (0:ℕ) = sqLoop.length - 1)) := by simp
  have hL1 : rawL1 sqRaw 0 ≠ 0 := by rw [sq_rawL1]; norm_num
  have hL2 : rawL2 sqRaw true 0 ≠ 0 := by rw [sq_rawL2]; norm_num
  have hd1 : offD1 sqLoop 0 ≠ 0 := by rw [sq_offD1]; norm_num
  have hd2 : offD2 sqLoop true 0 ≠ 0 := by rw [sq_offD2]; norm_num
  have ht1 : (1e-3 : ℝ) ≤ thetaAt sqLoop true 0 := by
    rw [sq_theta]; exact le_of_not_lt half_pi_not_small
  have ht2 : (1e-3 : ℝ) ≤ |Real.pi - thetaAt sqLoop true 0| := by
    rw [sq_theta]; exact le_of_not_lt half_pi_not_near_pi
  exact ⟨hf, hend, hL1, hL2, hd1, hd2, ht1, ht2,
    C2_clamped_radius sqRaw sqLoop 2 0.6 true 0 hf hend hL1 hL2 hd1 hd2 ht1 ht2⟩

/-! ### C4: degenerate segment detection -/

lemma hypot_0_0 : hypot 0 0 = 0 := by norm_num [hypot]

lemma hypot_3_4 : hypot 3 4 = 5 := hypot_eval 3 4 5 (by norm_num) (by norm_num)

lemma hypot_n3_n4 : hypot (-3) (-4) = 5 :=
  hypot_eval (-3) (-4) 5 (by norm_num) (by norm_num)

/-- C4 (code bug evidence): a zero-length edge between consecutive LISTED
points is caught and reported as the degenerate-segment error, but a
zero-length WRAP-AROUND edge of a closed path (last point returning to the
first) is never checked: on `[(0,0),(3,4),(0,0)]` closed — whose wrap edge
has length 0 — the computation does not fail with the degenerate-segment
error and produces output loops.  (In Python this point divides by the
zero wrap length, raising an untyped `ZeroDivisionError` instead of the
documented typed failure.) -/
theorem C4_wrap_edge_not_checked :
    effect [((0:ℝ), (0:ℝ)), (0, 0), (5, 5)] false 2 0.6 =
      Except.error Err.degenerateSegment ∧
    ∃ res, effect [((0:ℝ), (0:ℝ)), (3, 4), (0, 0)] true 2 0.6 = Except.ok res := by
  constructor
  · have hlens : listedLens [((0:ℝ), (0:ℝ)), (0, 0), (5, 5)] = [0, hypot 5 5] := by
      norm_num [listedLens, hypot_0_0]
    unfold effect
    rw [if_neg (by norm_num), if_pos (by rw [hlens]; exact ⟨0, by simp, rfl⟩)]
  · have hlens : listedLens [((0:ℝ), (0:ℝ)), (3, 4), (0, 0)] = [5, 5] := by
      norm_num [listedLens, hypot_3_4, hypot_n3_n4]
    unfold effect
    rw [if_neg (by norm_num), if_neg ?hnz]
    case hnz =>
      rw [hlens]
      rintro ⟨l, hl, h0⟩
      simp at hl
      rw [hl] at h0
      norm_num at h0
    exact ⟨_, rfl⟩

/-! ### C7: open two-point segment gives a rectangle -/

/-- Endpoint-cap offset: the input point `q` moved by `half_w * s` along the
left normal of the single segment `p0 → p1` (the start/end cap formula of
the offset builder). -/
noncomputable def capOffset (p0 p1 q : Pt) (half_w s : ℝ) : Pt :=
  (q.1 + (rot90 (dirOf p0 p1)).1 * half_w * s,
   q.2 + (rot90 (dirOf p0 p1)).2 * half_w * s)

/-- The C7 claim for an open two-point input: the output is the single
closed loop through the four rectangle corners `p0 ± h*n`, `p1 ± h*n`
(`n` the segment's unit left normal, `h = w/2`), with only MoveTo /
LineTo / Close commands; opposite sides have the squared lengths
`dsq p0 p1` (length `L` squared) and `w^2`, and the normal is
perpendicular to the segment. -/
noncomputable def C7RectSpec (p0 p1 : Pt) (w f : ℝ) : Prop :=
  effect [p0, p1] false w f = Except.ok (RibbonResult.openLoop
    [OpenCmd.M (Sum.inl (capOffset p0 p1 p0 (w / 2) 1)),
     OpenCmd.flat Letter.L
       [(capOffset p0 p1 p1 (w / 2) 1).1, (capOffset p0 p1 p1 (w / 2) 1).2],
     OpenCmd.flat Letter.L
       [(capOffset p0 p1 p1 (w / 2) (-1)).1, (capOffset p0 p1 p1 (w / 2) (-1)).2],
     OpenCmd.flat Letter.L
       [(capOffset p0 p1 p0 (w / 2) (-1)).1, (capOffset p0 p1 p0 (w / 2) (-1)).2],
     OpenCmd.Z]) ∧
  dsq (capOffset p0 p1 p0 (w / 2) 1) (capOffset p0 p1 p1 (w / 2) 1) = dsq p0 p1 ∧
  dsq (capOffset p0 p1 p1 (w / 2) 1) (capOffset p0 p1 p1 (w / 2) (-1)) = w ^ 2 ∧
  dsq (capOffset p0 p1 p1 (w / 2) (-1)) (capOffset p0 p1 p0 (w / 2) (-1)) = dsq p0 p1 ∧
  dsq (capOffset p0 p1 p0 (w / 2) (-1)) (capOffset p0 p1 p0 (w / 2) 1) = w ^ 2 ∧
  dot2 (p1.1 - p0.1, p1.2 - p0.2) (rot90 (dirOf p0 p1)) = 0

lemma rot90_dirOf_unit (p0 p1 : Pt) (h : hypot (p1.1 - p0.1) (p1.2 - p0.2) ≠ 0) :
    (rot90 (dirOf p0 p1)).1 ^ 2 + (rot90 (dirOf p0 p1)).2 ^ 2 = 1 := by
  have hu := unit_sq_of_hypot (p1.1 - p0.1) (p1.2 - p0.2) h
  simp only [rot90, dirOf]
  ring_nf
  ring_nf at hu
  linarith

/-- C7: for every open input of two distinct points and positive width the
result is the flat-capped rectangle described by `C7RectSpec`. -/
theorem C7_two_point_rectangle (p0 p1 : Pt) (w f : ℝ)
    (hne : p0 ≠ p1) (hw : 0 < w) : C7RectSpec p0 p1 w f := by
  have hL : hypot (p1.1 - p0.1) (p1.2 - p0.2) ≠ 0 := by
    rw [Ne, hypot_eq_zero_iff]
    rintro ⟨h1, h2⟩
    apply hne
    rw [Prod.ext_iff]
    constructor <;> linarith
  have hunit := rot90_dirOf_unit p0 p1 hL
  have hnorms : normsOf [p0, p1] false = [rot90 (dirOf p0 p1)] := by
    simp [normsOf, dirsOf]
  have ho : ∀ s : ℝ,
      offsetPt [p0, p1] false (w / 2) s 0 = capOffset p0 p1 p0 (w / 2) s ∧
      offsetPt [p0, p1] false (w / 2) s 1 = capOffset p0 p1 p1 (w / 2) s := by
    intro s
    constructor
    · simp only [offsetPt, hnorms]
      norm_num [pAt, capOffset]
    · simp only [offsetPt, hnorms]
      norm_num [pAt, capOffset]
  have hlpts : leftPts [p0, p1] false (w / 2) =
      [capOffset p0 p1 p0 (w / 2) 1, capOffset p0 p1 p1 (w / 2) 1] := by
    simp only [leftPts]
    rw [show ([p0, p1] : List Pt).length = 2 by simp,
      show List.range 2 = [0, 1] from rfl]
    simp [(ho 1).1, (ho 1).2]
  have hrpts : rightPts [p0, p1] false (w / 2) =
      [capOffset p0 p1 p0 (w / 2) (-1), capOffset p0 p1 p1 (w / 2) (-1)] := by
    simp only [rightPts]
    rw [show ([p0, p1] : List Pt).length = 2 by simp,
      show List.range 2 = [0, 1] from rfl]
    simp [(ho (-1)).1, (ho (-1)).2]
  have hcf : ∀ (raw : List Pt) (o ir : ℝ) (a b : Pt),
      compute_fillet raw [a, b] o ir false = [FilletCmd.L a, FilletCmd.L b] := by
    intro raw o ir a b
    simp only [compute_fillet]
    rw [show ([a, b] : List Pt).length = 2 by simp,
      show List.range 2 = [0, 1] from rfl]
    simp [filletAt, pAt]
  have hlens : listedLens [p0, p1] = [hypot (p1.1 - p0.1) (p1.2 - p0.2)] := by
    simp [listedLens]
  refine ⟨?_, by simp only [dsq, capOffset]; ring, ?_, by simp only [dsq, capOffset]; ring, ?_, ?_⟩
  · unfold effect
    rw [if_neg (by norm_num), if_neg ?hnz]
    case hnz =>
      rw [hlens]
      rintro ⟨l, hl, h0⟩
      simp at hl
      rw [hl] at h0
      exact hL h0
    rw [if_neg (by norm_num)]
    rw [hlpts, hrpts, hcf, hcf]
    rfl
  · simp only [dsq, capOffset]
    ring_nf
    ring_nf at hunit
    nlinarith [hunit]
  · simp only [dsq, capOffset]
    ring_nf
    ring_nf at hunit
    nlinarith [hunit]
  · simp only [dot2, rot90, dirOf]
    ring

/-- C7 witness: concrete open segment `(0,0) → (3,4)` with width 2. -/
theorem C7_two_point_rectangle_witness :
    ((((0:ℝ), (0:ℝ)) : Pt) ≠ ((3:ℝ), (4:ℝ))) ∧ ((0:ℝ) < 2) ∧
    C7RectSpec ((0:ℝ), (0:ℝ)) ((3:ℝ), (4:ℝ)) 2 0.6 := by
  have hne : (((0:ℝ), (0:ℝ)) : Pt) ≠ ((3:ℝ), (4:ℝ)) := by
    intro h
    rw [Prod.ext_iff] at h
    norm_num at h
  exact ⟨hne, by norm_num, C7_two_point_rectangle _ _ 2 0.6 hne (by norm_num)⟩

/-! ### C10: open-path assembly -/

/-- Left fillet sequence as assembled inside `effect` for an open path. -/
noncomputable def leftLoopOf (pts : List Pt) (w f : ℝ) : List FilletCmd :=
  compute_fillet pts (leftPts pts false (w / 2)) (outerR w f) (innerR w f) false

/-- Right fillet sequence as assembled inside `effect` for an open path. -/
noncomputable def rightLoopOf (pts : List Pt) (w f : ℝ) : List FilletCmd :=
  compute_fillet pts (rightPts pts false (w / 2)) (outerR w f) (innerR w f) false

/-- The merged open-path output: MoveTo the first left offset point, then
the left tail followed by the REVERSED right sequence, each command
flattened with its points kept in original forward order, then Close. -/
noncomputable def mergedOut (pts : List Pt) (w f : ℝ) : List OpenCmd :=
  OpenCmd.M (Sum.inl (pAt (leftPts pts false (w / 2)) 0)) ::
    ((leftLoopOf pts w f).tail ++ (rightLoopOf pts w f).reverse).map flattenCmd ++
    [OpenCmd.Z]

/-- The C10 claim: the open-path result is exactly `mergedOut`, and every
right-side cubic command reappears in the merged loop as a `C` entry whose
six coordinates are `c1, c2, end` in unchanged forward order. -/
noncomputable def C10MergeSpec (pts : List Pt) (w f : ℝ) : Prop :=
  effect pts false w f = Except.ok (RibbonResult.openLoop (mergedOut pts w f)) ∧
  ∀ c1 c2 e : Pt, FilletCmd.C c1 c2 e ∈ rightLoopOf pts w f →
    OpenCmd.flat Letter.C [c1.1, c1.2, c2.1, c2.2, e.1, e.2] ∈ mergedOut pts w f

/-- C10: for every open input with at least two points and no zero-length
listed edge, the merged ribbon loop appends the right-side commands in
reversed sequence order with unchanged argument tuples, starting with
MoveTo the first left-side point and ending with Close. -/
theorem C10_open_merge (pts : List Pt) (w f : ℝ)
    (hlen : 2 ≤ pts.length) (hnz : ¬ ∃ l ∈ listedLens pts, l = 0) :
    C10MergeSpec pts w f := by
  have hm : (leftPts pts false (w / 2)).length = pts.length := by
    simp [leftPts]
  have hk : pts.length = (pts.length - 1) + 1 := by omega
  have h0 : filletAt pts (leftPts pts false (w / 2)) (outerR w f) (innerR w f)
      false 0 = [FilletCmd.L (pAt (leftPts pts false (w / 2)) 0)] := by
    unfold filletAt
    rw [if_pos ⟨rfl, Or.inl rfl⟩]
  have hexp : leftLoopOf pts w f =
      FilletCmd.L (pAt (leftPts pts false (w / 2)) 0) ::
        ((List.range (pts.length - 1)).map Nat.succ).flatMap
          (filletAt pts (leftPts pts false (w / 2)) (outerR w f) (innerR w f) false) := by
    conv_lhs =>
      rw [leftLoopOf, compute_fillet, hm, hk, List.range_succ_eq_map,
        List.flatMap_cons, h0]
    rfl
  have htail : (leftLoopOf pts w f).tail =
      ((List.range (pts.length - 1)).map Nat.succ).flatMap
        (filletAt pts (leftPts pts false (w / 2)) (outerR w f) (innerR w f) false) := by
    rw [hexp]
    rfl
  constructor
  · unfold effect
    rw [if_neg (not_lt.mpr hlen), if_neg hnz, if_neg (by simp)]
    show Except.ok (RibbonResult.openLoop
        (build_path (leftLoopOf pts w f ++ (rightLoopOf pts w f).reverse))) = _
    unfold mergedOut
    rw [htail, hexp]
    rfl
  · intro c1 c2 e hmem
    rw [mergedOut]
    refine List.mem_cons_of_mem _ (List.mem_append_left _ ?_)
    refine List.mem_map.mpr ⟨FilletCmd.C c1 c2 e, ?_, rfl⟩
    exact List.mem_append_right _ (List.mem_reverse.mpr hmem)

/-- C10 witness: concrete open 3-point path with unit edges. -/
theorem C10_open_merge_witness :
    (2 ≤ ([((0:ℝ), (0:ℝ)), (1, 0), (1, 1)] : List Pt).length) ∧
    (¬ ∃ l ∈ listedLens [((0:ℝ), (0:ℝ)), (1, 0), (1, 1)], l = 0) ∧
    C10MergeSpec [((0:ℝ), (0:ℝ)), (1, 0), (1, 1)] 2 0.6 := by
  have hlen : 2 ≤ ([((0:ℝ), (0:ℝ)), (1, 0), (1, 1)] : List Pt).length := by norm_num
  have hlens : listedLens [((0:ℝ), (0:ℝ)), (1, 0), (1, 1)] = [1, 1] := by
    norm_num [listedLens, hypot_1_0, hypot_0_1]
  have hnz : ¬ ∃ l ∈ listedLens [((0:ℝ), (0:ℝ)), (1, 0), (1, 1)], l = 0 := by
    rw [hlens]
    rintro ⟨l, hl, h0⟩
    simp at hl
    rw [hl] at h0
    norm_num at h0
  exact ⟨hlen, hnz, C10_open_merge _ 2 0.6 hlen hnz⟩

/-! ### C3: closed-path assembly -/

lemma hypot_0_n1 : hypot 0 (-1) = 1 := hypot_eval 0 (-1) 1 (by norm_num) (by norm_num)

lemma hypot_n1_0 : hypot (-1) 0 = 1 := hypot_eval (-1) 0 1 (by norm_num) (by norm_num)

lemma sq_lens : listedLens sqRaw = [1, 1, 1] := by
  norm_num [listedLens, sqRaw, hypot_0_1, hypot_1_0, hypot_0_n1]

lemma sq_dirs : dirsOf sqRaw true = [(0, 1), (1, 0), (0, -1), (-1, 0)] := by
  norm_num [dirsOf, dirOf, sqRaw, List.getLastD, hypot_0_1, hypot_1_0,
    hypot_0_n1, hypot_n1_0]

lemma sq_norms : normsOf sqRaw true = [(-1, 0), (0, 1), (1, 0), (0, -1)] := by
  rw [normsOf, sq_dirs]
  norm_num [rot90]

lemma sq_left0 : offsetPt sqRaw true 1 1 0 = (-1, -1) := by
  simp only [offsetPt, sq_dirs, sq_norms]
  norm_num [pAt, sqRaw, intersect, List.getLastD]

lemma sq_left1 : offsetPt sqRaw true 1 1 1 = (-1, 2) := by
  simp only [offsetPt, sq_dirs, sq_norms]
  norm_num [pAt, sqRaw, intersect, List.getLastD]

lemma sq_left2 : offsetPt sqRaw true 1 1 2 = (2, 2) := by
  simp only [offsetPt, sq_dirs, sq_norms]
  norm_num [pAt, sqRaw, intersect, List.getLastD]

lemma sq_left3 : offsetPt sqRaw true 1 1 3 = (2, -1) := by
  simp only [offsetPt, sq_dirs, sq_norms]
  norm_num [pAt, sqRaw, intersect, List.getLastD]

lemma sq_leftPts : leftPts sqRaw true 1 = sqLoop := by
  rw [leftPts, show sqRaw.length = 4 by norm_num [sqRaw],
    show List.range 4 = [0, 1, 2, 3] from rfl]
  simp only [List.map]
  rw [sq_left0, sq_left1, sq_left2, sq_left3, sqLoop]

lemma sq_filletAt0 : filletAt sqRaw sqLoop 2.2 0.2 true 0 =
    [FilletCmd.L (-0.8, -1),
     FilletCmd.C (-0.8, -1 - 0.2 * (4 / 3 * Real.tan (Real.pi / 8)))
       (-1 - 0.2 * (4 / 3 * Real.tan (Real.pi / 8)), -0.8) (-1, -0.8)] := by
  rw [filletAt_arc sqRaw sqLoop 2.2 0.2 true 0 (by simp)
      (by rintro (h | h)
          · rw [sq_rawL1] at h; norm_num at h
          · rw [sq_rawL2] at h; norm_num at h)
      sq_not_deg_theta,
    sq_start, sq_ctrl1, sq_ctrl2, sq_end]

/-- C3 (code bug evidence): on the closed clockwise unit square with width
2, fillet 0.6, the outer loop emitted by the closed branch wraps every
generated command in an `L` entry: the initial `M` carries the whole first
fillet command (not its point), and the generated CubicTo appears as the
argument of an `L` command — the LineTo/CubicTo kinds are not preserved. -/
theorem C3_closed_branch_wraps_commands :
    ∃ (c1 c2 e : Pt) (rest inner : List ClosedCmd),
      effect sqRaw true 2 0.6 = Except.ok (RibbonResult.closedLoops
        (ClosedCmd.M (FilletCmd.L (-0.8, -1)) ::
          ClosedCmd.L (FilletCmd.C c1 c2 e) :: rest) inner) := by
  have hnz : ¬ ∃ l ∈ listedLens sqRaw, l = 0 := by
    rw [sq_lens]
    rintro ⟨l, hl, h0⟩
    simp at hl
    rw [hl] at h0
    norm_num at h0
  have hcf : compute_fillet sqRaw sqLoop 2.2 0.2 true =
      FilletCmd.L (-0.8, -1) ::
        FilletCmd.C (-0.8, -1 - 0.2 * (4 / 3 * Real.tan (Real.pi / 8)))
          (-1 - 0.2 * (4 / 3 * Real.tan (Real.pi / 8)), -0.8) (-1, -0.8) ::
        ((List.range 3).map Nat.succ).flatMap (filletAt sqRaw sqLoop 2.2 0.2 true) := by
    conv_lhs =>
      rw [compute_fillet, show sqLoop.length = 4 by norm_num [sqLoop],
        show (4 : ℕ) = 3 + 1 from rfl, List.range_succ_eq_map,
        List.flatMap_cons, sq_filletAt0]
    rfl
  refine ⟨(-0.8, -1 - 0.2 * (4 / 3 * Real.tan (Real.pi / 8))),
    (-1 - 0.2 * (4 / 3 * Real.tan (Real.pi / 8)), -0.8), (-1, -0.8),
    (((List.range 3).map Nat.succ).flatMap
      (filletAt sqRaw sqLoop 2.2 0.2 true)).map ClosedCmd.L ++ [ClosedCmd.Z],
    closedLoopOf (compute_fillet sqRaw (rightPts sqRaw true 1) 2.2 0.2 true), ?_⟩
  unfold effect
  rw [if_neg (by norm_num [sqRaw]), if_neg hnz, if_pos rfl,
    show (2 : ℝ) / 2 = 1 by norm_num, outerR_2_06, innerR_2_06, sq_leftPts, hcf]
  rfl

/-! ### C8: offset monotonicity relative to the centroid -/

/-- Componentwise difference of two points. -/
def sub2 (a b : Pt) : Pt := (a.1 - b.1, a.2 - b.2)

set_option maxHeartbeats 1000000 in
/-- Central estimate for one offset vertex of a closed path.  With unit edge
directions `(a1,b1)`, `(a2,b2)` whose left normals both make a dot product
of at least `h` with `p - c` (the vertex seen from `c`), the intersected
offset vertex at `+h` (left) is strictly farther from `c` than `p`, and the
one at `-h` (right) is no farther — in both branches of `intersect`. -/
lemma miter_core (px py cx cy a1 b1 a2 b2 h s : ℝ) (hh : 0 < h)
    (hu1 : a1 ^ 2 + b1 ^ 2 = 1) (hu2 : a2 ^ 2 + b2 ^ 2 = 1)
    (hA1 : h / 2 ≤ -b1 * (px - cx) + a1 * (py - cy))
    (hA2 : h / 2 ≤ -b2 * (px - cx) + a2 * (py - cy)) :
    (s = 1 → (px - cx) ^ 2 + (py - cy) ^ 2 <
      ((intersect (px + -b1 * h * s, py + a1 * h * s) (a1, b1)
          (px + -b2 * h * s, py + a2 * h * s) (a2, b2)).1 - cx) ^ 2 +
      ((intersect (px + -b1 * h * s, py + a1 * h * s) (a1, b1)
          (px + -b2 * h * s, py + a2 * h * s) (a2, b2)).2 - cy) ^ 2) ∧
    (s = -1 →
      ((intersect (px + -b1 * h * s, py + a1 * h * s) (a1, b1)
          (px + -b2 * h * s, py + a2 * h * s) (a2, b2)).1 - cx) ^ 2 +
      ((intersect (px + -b1 * h * s, py + a1 * h * s) (a1, b1)
          (px + -b2 * h * s, py + a2 * h * s) (a2, b2)).2 - cy) ^ 2 ≤
      (px - cx) ^ 2 + (py - cy) ^ 2) := by
  by_cases hpar : |a1 * b2 - b1 * a2| < 1e-6
  · have hq : intersect (px + -b1 * h * s, py + a1 * h * s) (a1, b1)
        (px + -b2 * h * s, py + a2 * h * s) (a2, b2) = (px + -b1 * h * s, py + a1 * h * s) := by
      simp only [intersect]
      rw [if_pos hpar]
    rw [hq]
    dsimp only
    constructor
    · rintro rfl
      nlinarith [hA1, hh, hu1, mul_pos hh hh, mul_le_mul_of_nonneg_left hA1 hh.le]
    · rintro rfl
      nlinarith [hA1, hh, hu1, mul_pos hh hh, mul_le_mul_of_nonneg_left hA1 hh.le]
  · have hD : a1 * b2 - b1 * a2 ≠ 0 := fun h0 => hpar (by rw [h0]; norm_num)
    have hq : intersect (px + -b1 * h * s, py + a1 * h * s) (a1, b1)
        (px + -b2 * h * s, py + a2 * h * s) (a2, b2) =
        (px + (-b1 * h * s +
          (((px + -b2 * h * s) - (px + -b1 * h * s)) * b2 -
           ((py + a2 * h * s) - (py + a1 * h * s)) * a2) / (a1 * b2 - b1 * a2) * a1),
         py + (a1 * h * s +
          (((px + -b2 * h * s) - (px + -b1 * h * s)) * b2 -
           ((py + a2 * h * s) - (py + a1 * h * s)) * a2) / (a1 * b2 - b1 * a2) * b1)) := by
      simp only [intersect]
      rw [if_neg hpar, Prod.ext_iff]
      exact ⟨by ring, by ring⟩
    rw [hq]
    dsimp only
    set T := (((px + -b2 * h * s) - (px + -b1 * h * s)) * b2 -
        ((py + a2 * h * s) - (py + a1 * h * s)) * a2) / (a1 * b2 - b1 * a2) with hT
    set W1 := -b1 * h * s + T * a1 with hW1
    set W2 := a1 * h * s + T * b1 with hW2
    have hdot1 : -b1 * W1 + a1 * W2 = h * s := by
      rw [hW1, hW2]
      linear_combination (h * s) * hu1
    have hTD : T * (a1 * b2 - b1 * a2) =
        h * s * ((b1 - b2) * b2 - (a2 - a1) * a2) := by
      rw [hT, div_mul_cancel₀ _ hD]
      ring
    have hdot2 : -b2 * W1 + a2 * W2 = h * s := by
      rw [hW1, hW2]
      linear_combination (-1 : ℝ) * hTD + (h * s) * hu2
    clear hT hW1 hW2 hTD
    clear_value T W1 W2
    have hlag : (a1 * a2 + b1 * b2) ^ 2 + (a1 * b2 - b1 * a2) ^ 2 =
        (a1 ^ 2 + b1 ^ 2) * (a2 ^ 2 + b2 ^ 2) := by ring
    have hD2 : 0 < (a1 * b2 - b1 * a2) ^ 2 :=
      lt_of_le_of_ne (sq_nonneg _) (Ne.symm (pow_ne_zero 2 hD))
    have hg : 0 < 1 + (a1 * a2 + b1 * b2) := by nlinarith [hlag, hD2, hu1, hu2]
    have e1 : W1 * (a1 * b2 - b1 * a2) = h * s * (a2 - a1) := by
      linear_combination a2 * hdot1 - a1 * hdot2
    have e2 : W2 * (a1 * b2 - b1 * a2) = h * s * (b2 - b1) := by
      linear_combination b2 * hdot1 - b1 * hdot2
    have hkey1 : W1 * (1 + (a1 * a2 + b1 * b2)) = h * s * (-b1 + -b2) := by
      have h0 : (W1 * (1 + (a1 * a2 + b1 * b2)) - h * s * (-b1 + -b2)) *
          (a1 * b2 - b1 * a2) = 0 := by
        linear_combination (1 + (a1 * a2 + b1 * b2)) * e1 - (h * s * a2) * hu1 +
          (h * s * a1) * hu2
      rcases mul_eq_zero.mp h0 with h1 | h1
      · linarith
      · exact absurd h1 hD
    have hkey2 : W2 * (1 + (a1 * a2 + b1 * b2)) = h * s * (a1 + a2) := by
      have h0 : (W2 * (1 + (a1 * a2 + b1 * b2)) - h * s * (a1 + a2)) *
          (a1 * b2 - b1 * a2) = 0 := by
        linear_combination (1 + (a1 * a2 + b1 * b2)) * e2 - (h * s * b2) * hu1 +
          (h * s * b1) * hu2
      rcases mul_eq_zero.mp h0 with h1 | h1
      · linarith
      · exact absurd h1 hD
    have hSS : (-b1 + -b2) ^ 2 + (a1 + a2) ^ 2 = 2 * (1 + (a1 * a2 + b1 * b2)) := by
      linear_combination hu1 + hu2
    have hmain : (2 * (W1 * (px - cx) + W2 * (py - cy)) + W1 ^ 2 + W2 ^ 2) *
        (1 + (a1 * a2 + b1 * b2)) ^ 2 =
        2 * (1 + (a1 * a2 + b1 * b2)) *
          (h * s * ((-b1 + -b2) * (px - cx) + (a1 + a2) * (py - cy))) +
        2 * h ^ 2 * s ^ 2 * (1 + (a1 * a2 + b1 * b2)) := by
      linear_combination
        (2 * (px - cx) * (1 + (a1 * a2 + b1 * b2)) + W1 * (1 + (a1 * a2 + b1 * b2)) +
          h * s * (-b1 + -b2)) * hkey1 +
        (2 * (py - cy) * (1 + (a1 * a2 + b1 * b2)) + W2 * (1 + (a1 * a2 + b1 * b2)) +
          h * s * (a1 + a2)) * hkey2 +
        (h ^ 2 * s ^ 2) * hSS
    have hgg : 0 < (1 + (a1 * a2 + b1 * b2)) ^ 2 := by positivity
    have t1 : 0 ≤ (1 + (a1 * a2 + b1 * b2)) * h *
        ((-b1 * (px - cx) + a1 * (py - cy)) - h / 2) :=
      mul_nonneg (mul_pos hg hh).le (by linarith)
    have t2 : 0 ≤ (1 + (a1 * a2 + b1 * b2)) * h *
        ((-b2 * (px - cx) + a2 * (py - cy)) - h / 2) :=
      mul_nonneg (mul_pos hg hh).le (by linarith)
    constructor
    · rintro rfl
      have hRHS : 0 < 2 * (1 + (a1 * a2 + b1 * b2)) *
          (h * 1 * ((-b1 + -b2) * (px - cx) + (a1 + a2) * (py - cy))) +
          2 * h ^ 2 * 1 ^ 2 * (1 + (a1 * a2 + b1 * b2)) := by
        have hp := mul_pos (mul_pos hg hh) hh
        linarith [t1, t2, hp]
      have hXg : 0 < (2 * (W1 * (px - cx) + W2 * (py - cy)) + W1 ^ 2 + W2 ^ 2) *
          (1 + (a1 * a2 + b1 * b2)) ^ 2 := by
        rw [hmain]
        exact hRHS
      have hXpos : 0 < 2 * (W1 * (px - cx) + W2 * (py - cy)) + W1 ^ 2 + W2 ^ 2 := by
        have hdiv := div_pos hXg hgg
        rwa [mul_div_cancel_right₀ _ (ne_of_gt hgg)] at hdiv
      linarith [hXpos, sq_nonneg W1, sq_nonneg W2]
    · rintro rfl
      have hRHS : 2 * (1 + (a1 * a2 + b1 * b2)) *
          (h * -1 * ((-b1 + -b2) * (px - cx) + (a1 + a2) * (py - cy))) +
          2 * h ^ 2 * (-1) ^ 2 * (1 + (a1 * a2 + b1 * b2)) ≤ 0 := by
        linarith [t1, t2]
      have hXg : (2 * (W1 * (px - cx) + W2 * (py - cy)) + W1 ^ 2 + W2 ^ 2) *
          (1 + (a1 * a2 + b1 * b2)) ^ 2 ≤ 0 := by
        rw [hmain]
        exact hRHS
      have hXle : 2 * (W1 * (px - cx) + W2 * (py - cy)) + W1 ^ 2 + W2 ^ 2 ≤ 0 := by
        have hdiv := div_nonpos_of_nonpos_of_nonneg hXg hgg.le
        rwa [mul_div_cancel_right₀ _ (ne_of_gt hgg)] at hdiv
      linarith [hXle, sq_nonneg W1, sq_nonneg W2]

lemma getLastD_eq_getD (l : List Pt) (d : Pt) :
    l.getLastD d = l.getD (l.length - 1) d := by
  rw [List.getLastD_eq_getLast?, List.getLast?_eq_getElem?, List.getD_eq_getElem?_getD]

lemma headD_eq_getD (l : List Pt) (d : Pt) : l.headD d = l.getD 0 d := by
  cases l <;> rfl

/-- Index of the edge arriving at vertex `i` of a closed path
(the `dirs[-1]` / `dirs[i-1]` lookup of the offset builder). -/
def prevIdx (n i : ℕ) : ℕ := if i = 0 then n - 1 else i - 1

/-- Unit direction of edge `j` of the closed polygon (from vertex `j` to
vertex `(j+1) % n`). -/
noncomputable def dirAt (pts : List Pt) (j : ℕ) : Pt :=
  dirOf (pts.getD j (0, 0)) (pts.getD ((j + 1) % pts.length) (0, 0))

/-- Length of edge `j` of the closed polygon. -/
noncomputable def edgeLenAt (pts : List Pt) (j : ℕ) : ℝ :=
  hypot (edgeVec pts j).1 (edgeVec pts j).2

lemma dirsOf_length (pts : List Pt) (h : 1 ≤ pts.length) :
    (dirsOf pts true).length = pts.length := by
  simp [dirsOf]
  omega

lemma normsOf_length (pts : List Pt) (h : 1 ≤ pts.length) :
    (normsOf pts true).length = pts.length := by
  rw [normsOf, List.length_map]
  exact dirsOf_length pts h

lemma dirsOf_getD (pts : List Pt) (j : ℕ) (hj : j < pts.length) :
    (dirsOf pts true).getD j (0, 0) = dirAt pts j := by
  rcases lt_or_ge j (pts.length - 1) with hlt | hge
  · have hz : j < (pts.zip pts.tail).length := by
      simp [List.length_zip]
      omega
    have hmz : j < ((pts.zip pts.tail).map fun ab => dirOf ab.1 ab.2).length := by
      simpa using hz
    have h2 : j < pts.tail.length := by
      simp [List.length_tail]
      omega
    have hj1 : j + 1 < pts.length := by omega
    rw [dirsOf, List.getD_eq_getElem?_getD, List.getElem?_append_left hmz,
      ← List.getD_eq_getElem?_getD, List.getD_eq_getElem _ _ hmz, List.getElem_map,
      List.getElem_zip, List.getElem_tail, dirAt, Nat.mod_eq_of_lt hj1,
      List.getD_eq_getElem _ (0, 0) hj, List.getD_eq_getElem _ (0, 0) hj1]
  · have hjeq : j = pts.length - 1 := by omega
    subst hjeq
    have hlen1 : ((pts.zip pts.tail).map fun ab => dirOf ab.1 ab.2).length =
        pts.length - 1 := by
      simp [List.length_zip]
    rw [dirsOf, List.getD_eq_getElem?_getD,
      List.getElem?_append_right hlen1.le]
    rw [hlen1, Nat.sub_self]
    show (if true = true then [dirOf (pts.getLastD (0, 0)) (pts.headD (0, 0))]
      else ([] : List Pt))[0]?.getD (0, 0) = dirAt pts (pts.length - 1)
    rw [if_pos rfl]
    show dirOf (pts.getLastD (0, 0)) (pts.headD (0, 0)) = dirAt pts (pts.length - 1)
    rw [getLastD_eq_getD, headD_eq_getD, dirAt,
      Nat.sub_add_cancel (by omega), Nat.mod_self]

lemma normsOf_getD (pts : List Pt) (j : ℕ) (hj : j < pts.length) :
    (normsOf pts true).getD j (0, 0) = rot90 (dirAt pts j) := by
  have hl : j < (dirsOf pts true).length := by
    rw [dirsOf_length pts (by omega)]
    exact hj
  have hm : j < ((dirsOf pts true).map rot90).length := by
    simpa using hl
  rw [normsOf, List.getD_eq_getElem _ _ hm, List.getElem_map,
    ← List.getD_eq_getElem _ (0, 0) hl, dirsOf_getD pts j hj]

lemma leftPts_getD (pts : List Pt) (closed : Bool) (h : ℝ) (i : ℕ)
    (hi : i < pts.length) :
    pAt (leftPts pts closed h) i = offsetPt pts closed h 1 i := by
  have hm : i < ((List.range pts.length).map (offsetPt pts closed h 1)).length := by
    simpa using hi
  rw [pAt, leftPts, List.getD_eq_getElem _ _ hm, List.getElem_map, List.getElem_range]

lemma rightPts_getD (pts : List Pt) (closed : Bool) (h : ℝ) (i : ℕ)
    (hi : i < pts.length) :
    pAt (rightPts pts closed h) i = offsetPt pts closed h (-1) i := by
  have hm : i < ((List.range pts.length).map (offsetPt pts closed h (-1))).length := by
    simpa using hi
  rw [pAt, rightPts, List.getD_eq_getElem _ _ hm, List.getElem_map, List.getElem_range]

lemma offsetPt_closed (pts : List Pt) (h s : ℝ) (i : ℕ)
    (hn : 1 ≤ pts.length) (hi : i < pts.length) :
    offsetPt pts true h s i =
      intersect
        ((pAt pts i).1 + (rot90 (dirAt pts (prevIdx pts.length i))).1 * h * s,
         (pAt pts i).2 + (rot90 (dirAt pts (prevIdx pts.length i))).2 * h * s)
        (dirAt pts (prevIdx pts.length i))
        ((pAt pts i).1 + (rot90 (dirAt pts i)).1 * h * s,
         (pAt pts i).2 + (rot90 (dirAt pts i)).2 * h * s)
        (dirAt pts i) := by
  have hp1 : pts.length - 1 < pts.length := by omega
  by_cases h0 : i = 0
  · subst h0
    simp only [offsetPt]
    rw [if_pos (trivial : True), if_pos (trivial : True)]
    rw [getLastD_eq_getD, getLastD_eq_getD, dirsOf_length pts hn, normsOf_length pts hn,
      dirsOf_getD pts _ hp1, normsOf_getD pts _ hp1, dirsOf_getD pts 0 hi,
      normsOf_getD pts 0 hi]
    rw [show prevIdx pts.length 0 = pts.length - 1 from if_pos rfl]
  · by_cases h1 : i = pts.length - 1
    · simp only [offsetPt]
      rw [if_neg h0, if_pos h1, if_pos (trivial : True)]
      have hprev : i - 1 < pts.length := by omega
      rw [dirsOf_getD pts _ hprev, normsOf_getD pts _ hprev, dirsOf_getD pts i hi,
        normsOf_getD pts i hi]
      rw [show prevIdx pts.length i = i - 1 from if_neg h0]
    · simp only [offsetPt]
      rw [if_neg h0, if_neg h1]
      have hprev : i - 1 < pts.length := by omega
      rw [dirsOf_getD pts _ hprev, normsOf_getD pts _ hprev, dirsOf_getD pts i hi,
        normsOf_getD pts i hi]
      rw [show prevIdx pts.length i = i - 1 from if_neg h0]

lemma dirAt_unit (pts : List Pt) (j : ℕ) (h : edgeLenAt pts j ≠ 0) :
    (dirAt pts j).1 ^ 2 + (dirAt pts j).2 ^ 2 = 1 :=
  unit_sq_of_hypot _ _ h

lemma dot2_rot90_dir_edge (p q : Pt) :
    dot2 (rot90 (dirOf p q)) (sub2 q p) = 0 := by
  simp only [dot2, rot90, dirOf, sub2]
  ring

lemma dot2_split (v a b c : Pt) :
    dot2 v (sub2 a c) = dot2 v (sub2 b c) + dot2 v (sub2 a b) := by
  simp only [dot2, sub2]
  ring

lemma prevIdx_lt (n i : ℕ) (hn : 1 ≤ n) (hi : i < n) : prevIdx n i < n := by
  unfold prevIdx
  split <;> omega

lemma prevIdx_next (n i : ℕ) (hn : 1 ≤ n) (hi : i < n) :
    (prevIdx n i + 1) % n = i := by
  unfold prevIdx
  split
  · rename_i h
    rw [Nat.sub_add_cancel hn, Nat.mod_self, h]
  · rename_i h
    rw [Nat.sub_add_cancel (by omega), Nat.mod_eq_of_lt hi]

/-- Vertex centroid of the polygon (arithmetic mean of the input points). -/
noncomputable def centroid (pts : List Pt) : Pt :=
  ((pts.map Prod.fst).sum / pts.length, (pts.map Prod.snd).sum / pts.length)

/-- Global convexity with clockwise orientation: every vertex lies (weakly)
on the clockwise side of every directed edge line. -/
def ConvexCW (pts : List Pt) : Prop :=
  ∀ i < pts.length, ∀ j < pts.length,
    cross2 (edgeVec pts i) (sub2 (pAt pts j) (pAt pts i)) ≤ 0

/-- The C8 claim (amended orientation): each vertex of the left (outer)
offset polyline is strictly farther from the centroid than the input
vertex, and each vertex of the right (inner) offset polyline is no farther
(both in squared distance). -/
noncomputable def C8Spec (pts : List Pt) (w : ℝ) : Prop :=
  ∀ i < pts.length,
    dsq (pAt pts i) (centroid pts) <
      dsq (pAt (leftPts pts true (w / 2)) i) (centroid pts) ∧
    dsq (pAt (rightPts pts true (w / 2)) i) (centroid pts) ≤
      dsq (pAt pts i) (centroid pts)

lemma offset_vertex_bounds (pts : List Pt) (w : ℝ) (i : ℕ)
    (hn : 3 ≤ pts.length) (hi : i < pts.length) (hw : 0 < w)
    (hedges : ∀ j < pts.length, edgeLenAt pts j ≠ 0)
    (hdist : ∀ j < pts.length,
      w / 4 ≤ dot2 (rot90 (dirAt pts j)) (sub2 (pAt pts j) (centroid pts))) :
    dsq (pAt pts i) (centroid pts) <
      dsq (offsetPt pts true (w / 2) 1 i) (centroid pts) ∧
    dsq (offsetPt pts true (w / 2) (-1) i) (centroid pts) ≤
      dsq (pAt pts i) (centroid pts) := by
  have hn1 : 1 ≤ pts.length := by omega
  have hpl : prevIdx pts.length i < pts.length := prevIdx_lt _ _ hn1 hi
  have hh : 0 < w / 2 := by linarith
  have hu1 : (dirAt pts (prevIdx pts.length i)).1 ^ 2 +
      (dirAt pts (prevIdx pts.length i)).2 ^ 2 = 1 :=
    dirAt_unit pts _ (hedges _ hpl)
  have hu2 : (dirAt pts i).1 ^ 2 + (dirAt pts i).2 ^ 2 = 1 :=
    dirAt_unit pts _ (hedges _ hi)
  have hA2 : w / 2 / 2 ≤ dot2 (rot90 (dirAt pts i)) (sub2 (pAt pts i) (centroid pts)) := by
    have := hdist i hi
    linarith
  have hda : dirAt pts (prevIdx pts.length i) =
      dirOf (pts.getD (prevIdx pts.length i) (0, 0)) (pts.getD i (0, 0)) := by
    rw [dirAt, prevIdx_next pts.length i hn1 hi]
  have hA1 : w / 2 / 2 ≤ dot2 (rot90 (dirAt pts (prevIdx pts.length i)))
      (sub2 (pAt pts i) (centroid pts)) := by
    rw [hda]
    have hperp : dot2 (rot90 (dirOf (pts.getD (prevIdx pts.length i) (0, 0))
        (pts.getD i (0, 0)))) (sub2 (pAt pts i) (pAt pts (prevIdx pts.length i))) = 0 :=
      dot2_rot90_dir_edge _ _
    have hsplit := dot2_split (rot90 (dirOf (pts.getD (prevIdx pts.length i) (0, 0))
      (pts.getD i (0, 0)))) (pAt pts i) (pAt pts (prevIdx pts.length i)) (centroid pts)
    have hbase := hdist (prevIdx pts.length i) hpl
    rw [hda] at hbase
    linarith [hsplit, hperp, hbase]
  constructor
  · rw [offsetPt_closed pts (w / 2) 1 i hn1 hi]
    exact (miter_core (pAt pts i).1 (pAt pts i).2 (centroid pts).1 (centroid pts).2
      (dirAt pts (prevIdx pts.length i)).1 (dirAt pts (prevIdx pts.length i)).2
      (dirAt pts i).1 (dirAt pts i).2 (w / 2) 1 hh hu1 hu2 hA1 hA2).1 rfl
  · rw [offsetPt_closed pts (w / 2) (-1) i hn1 hi]
    exact (miter_core (pAt pts i).1 (pAt pts i).2 (centroid pts).1 (centroid pts).2
      (dirAt pts (prevIdx pts.length i)).1 (dirAt pts (prevIdx pts.length i)).2
      (dirAt pts i).1 (dirAt pts i).2 (w / 2) (-1) hh hu1 hu2 hA1 hA2).2 rfl

/-- C8 (amended): for every clockwise-oriented closed convex polygon with
at least 3 vertices, nonzero edges (wrap-around included), positive width,
and the vertex centroid lying at distance at least `half_width/2 = w/4`
from every edge line (measured along the edge's left normal) — the exact
inversion threshold for a right-angle corner, see the width half of the
counterexample — every left/outer
offset vertex lies strictly farther from the centroid than its input
vertex, and every right/inner offset vertex lies no farther.  (For
counterclockwise input the roles are reversed; see the counterexample.) -/
theorem C8_amended_offset_monotone (pts : List Pt) (w : ℝ)
    (hn : 3 ≤ pts.length) (hw : 0 < w) (hcw : ConvexCW pts)
    (hedges : ∀ j < pts.length, edgeLenAt pts j ≠ 0)
    (hdist : ∀ j < pts.length,
      w / 4 ≤ dot2 (rot90 (dirAt pts j)) (sub2 (pAt pts j) (centroid pts))) :
    C8Spec pts w := by
  intro i hi
  have hb := offset_vertex_bounds pts w i hn hi hw hedges hdist
  constructor
  · rw [leftPts_getD pts true (w / 2) i hi]
    exact hb.1
  · rw [rightPts_getD pts true (w / 2) i hi]
    exact hb.2

/-- Counterclockwise unit square (a valid closed convex polygon). -/
def sqCCW : List Pt := [(0, 0), (1, 0), (1, 1), (0, 1)]

lemma sqCCW_dirs : dirsOf sqCCW true = [(1, 0), (0, 1), (-1, 0), (0, -1)] := by
  norm_num [dirsOf, dirOf, sqCCW, List.getLastD, hypot_1_0, hypot_0_1,
    hypot_n1_0, hypot_0_n1]

lemma sqCCW_norms : normsOf sqCCW true = [(0, 1), (-1, 0), (0, -1), (1, 0)] := by
  rw [normsOf, sqCCW_dirs]
  norm_num [rot90]

lemma sqCCW_left0 : pAt (leftPts sqCCW true (0.5 / 2)) 0 = (0.25, 0.25) := by
  rw [leftPts_getD sqCCW true (0.5 / 2) 0 (by norm_num [sqCCW])]
  simp only [offsetPt, sqCCW_dirs, sqCCW_norms]
  norm_num [pAt, sqCCW, intersect, List.getLastD]

lemma sqCCW_centroid : centroid sqCCW = (0.5, 0.5) := by
  norm_num [centroid, sqCCW]

lemma sqRaw_centroid : centroid sqRaw = (0.5, 0.5) := by
  norm_num [centroid, sqRaw]

lemma sqRaw_convexCW : ConvexCW sqRaw := by
  intro i hi j hj
  have hi4 : i < 4 := by simpa [sqRaw] using hi
  have hj4 : j < 4 := by simpa [sqRaw] using hj
  interval_cases i <;> interval_cases j <;>
    norm_num [cross2, edgeVec, sub2, pAt, sqRaw]

lemma sqRaw_edges : ∀ j < sqRaw.length, edgeLenAt sqRaw j ≠ 0 := by
  intro j hj
  have hj4 : j < 4 := by simpa [sqRaw] using hj
  interval_cases j <;>
    norm_num [edgeLenAt, edgeVec, sqRaw, hypot_1_0, hypot_0_1, hypot_n1_0,
      hypot_0_n1]

lemma sqRaw_right0_w10 : pAt (rightPts sqRaw true (10 / 2)) 0 = (5, 5) := by
  rw [rightPts_getD sqRaw true (10 / 2) 0 (by norm_num [sqRaw])]
  simp only [offsetPt, sq_dirs, sq_norms]
  norm_num [pAt, sqRaw, intersect, List.getLastD]

/-- C8 counterexample, both failure modes of the claim as stated.
Orientation: the counterclockwise unit square is a valid closed convex
polygon (all turn cross products nonnegative, no degenerate edge), yet
with `total_width = 0.5` the left/outer offset vertex at index 0 is
`(0.25, 0.25)`, strictly CLOSER to the centroid `(0.5, 0.5)` than the
input vertex `(0, 0)` — for counterclockwise input the left side offsets
inward.  Width: the CLOCKWISE unit square is also a valid closed convex
polygon, yet with `total_width = 10` the right/inner offset vertex at
index 0 inverts to `(5, 5)`, strictly FARTHER from the centroid than the
input vertex — so the inner no-farther half also fails once the
half-width exceeds twice the centroid-to-edge distance, forcing the
width bound of the amendment. -/
theorem C8_counterexample :
    ((∀ i < sqCCW.length, ∀ j < sqCCW.length,
        0 ≤ cross2 (edgeVec sqCCW i) (sub2 (pAt sqCCW j) (pAt sqCCW i))) ∧
      (∀ j < sqCCW.length, edgeLenAt sqCCW j ≠ 0) ∧
      pAt (leftPts sqCCW true (0.5 / 2)) 0 = (0.25, 0.25) ∧
      centroid sqCCW = (0.5, 0.5) ∧
      dsq (pAt (leftPts sqCCW true (0.5 / 2)) 0) (centroid sqCCW) <
        dsq (pAt sqCCW 0) (centroid sqCCW)) ∧
    (ConvexCW sqRaw ∧
      (∀ j < sqRaw.length, edgeLenAt sqRaw j ≠ 0) ∧
      pAt (rightPts sqRaw true (10 / 2)) 0 = (5, 5) ∧
      centroid sqRaw = (0.5, 0.5) ∧
      dsq (pAt sqRaw 0) (centroid sqRaw) <
        dsq (pAt (rightPts sqRaw true (10 / 2)) 0) (centroid sqRaw)) := by
  constructor
  · refine ⟨?_, ?_, sqCCW_left0, sqCCW_centroid, ?_⟩
    · intro i hi j hj
      have hi4 : i < 4 := by simpa [sqCCW] using hi
      have hj4 : j < 4 := by simpa [sqCCW] using hj
      interval_cases i <;> interval_cases j <;>
        norm_num [cross2, edgeVec, sub2, pAt, sqCCW]
    · intro j hj
      have hj4 : j < 4 := by simpa [sqCCW] using hj
      interval_cases j <;>
        norm_num [edgeLenAt, edgeVec, sqCCW, hypot_1_0, hypot_0_1, hypot_n1_0,
          hypot_0_n1]
    · rw [sqCCW_left0, sqCCW_centroid]
      norm_num [dsq, pAt, sqCCW]
  · refine ⟨sqRaw_convexCW, sqRaw_edges, sqRaw_right0_w10, sqRaw_centroid, ?_⟩
    rw [sqRaw_right0_w10, sqRaw_centroid]
    norm_num [dsq, pAt, sqRaw]

/-- C8 witness: the clockwise unit square with width 1 satisfies every
hypothesis of the amended theorem (convex, clockwise, unit edges, centroid
at distance `0.5 ≥ w/4` from each edge line), so its left offset loop is
strictly farther from the centroid and its right offset loop no farther. -/
theorem C8_amended_witness :
    (3 ≤ sqRaw.length) ∧ ((0:ℝ) < 1) ∧ ConvexCW sqRaw ∧
    (∀ j < sqRaw.length, edgeLenAt sqRaw j ≠ 0) ∧
    (∀ j < sqRaw.length,
      (1:ℝ) / 4 ≤ dot2 (rot90 (dirAt sqRaw j)) (sub2 (pAt sqRaw j) (centroid sqRaw))) ∧
    C8Spec sqRaw 1 := by
  have hn : 3 ≤ sqRaw.length := by norm_num [sqRaw]
  have hw : (0:ℝ) < 1 := by norm_num
  have hdist : ∀ j < sqRaw.length,
      (1:ℝ) / 4 ≤ dot2 (rot90 (dirAt sqRaw j)) (sub2 (pAt sqRaw j) (centroid sqRaw)) := by
    intro j hj
    have hj4 : j < 4 := by simpa [sqRaw] using hj
    rw [sqRaw_centroid]
    interval_cases j <;>
      norm_num [dirAt, dirOf, sqRaw, rot90, dot2, sub2, pAt, hypot_1_0, hypot_0_1,
        hypot_n1_0, hypot_0_n1]
  exact ⟨hn, hw, sqRaw_convexCW, sqRaw_edges, hdist,
    C8_amended_offset_monotone sqRaw 1 hn hw sqRaw_convexCW sqRaw_edges hdist⟩
